import Mathlib

/-!
# uspispy firmware (`src/uspy/firmware.c`): text formatter and monitor loop

Shallow embedding of the firmware's UART formatter (`print_char`, `print`,
`print_hex`, `print_dec`) and of one iteration of the polling loop of `main`.

Conventions of the embedding:

* a C `char` is its byte value, a `Nat`; `'\n'` is `10`, `'\r'` is `13`;
* the UART is the list of bytes stored to `reg_uart_data` so far, oldest first;
  every function that writes takes the list and returns the extended list;
* a `uint32_t` is a `Nat` below `2 ^ 32`; subtraction wraps modulo `2 ^ 32`;
* a `const char *` is the list of bytes found in memory from the pointer on,
  so a C string `s` is `s ++ [0]` (`cstr s`).
-/

namespace Uspy

/-! ## Bytes and strings -/

/-- Byte values of the characters of a string literal. -/
def bytes (s : String) : List Nat := s.toList.map Char.toNat

/-- C string in memory: the characters followed by the terminating NUL. -/
def cstr (s : List Nat) : List Nat := s ++ [0]

/-! ## `print_char` (firmware.c:45-50) -/

/-- Source `print_char`: a newline is preceded by a carriage return, obtained by
the recursive call `print_char('\r')`; then the byte is stored to the UART. -/
@[semireducible] def print_char (c : Nat) (uart : List Nat) : List Nat :=
  if c = 10 then
    print_char 13 uart ++ [c]
  else
    uart ++ [c]
termination_by (if c = 10 then 1 else 0)
decreasing_by simp_all

/-- Source `print_char` with a bound on the nesting of recursive calls:
`print_char_fuel n c uart` is `none` when the call would need more than `n`
nested recursive calls. -/
def print_char_fuel : Nat → Nat → List Nat → Option (List Nat)
  | 0, c, uart => if c = 10 then none else some (uart ++ [c])
  | n + 1, c, uart =>
    if c = 10 then
      (print_char_fuel n 13 uart).map (fun u => u ++ [c])
    else
      some (uart ++ [c])

/-! ## `print` (firmware.c:52-56) -/

/-- Source `print`: `while (*p) print_char(*(p++));` over the bytes found from
`p` on. Reading stops at the first NUL byte. -/
def print : List Nat → List Nat → List Nat
  | [], uart => uart
  | c :: p, uart => if c = 0 then uart else print p (print_char c uart)

/-! ## `print_hex` (firmware.c:58-66) -/

/-- The string literal `"0123456789abcdef"` indexed by a nibble. -/
def hexdigit (n : Nat) : Nat :=
  [48, 49, 50, 51, 52, 53, 54, 55, 56, 57, 97, 98, 99, 100, 101, 102].getD n 0

/-- Loop of `print_hex`: `print_hex_loop (i + 1)` runs the body for index `i`
and goes on with `i - 1`; `print_hex_loop 0` is the loop exit (`i = -1`). The
`int digits` is the suppression threshold, updated after each emitted digit. -/
def print_hex_loop : Nat → Nat → Int → List Nat → List Nat
  | 0, _, _, uart => uart
  | i + 1, v, digits, uart =>
    let c := hexdigit ((v >>> (4 * i)) &&& 15)
    if c = 48 ∧ (i : Int) ≥ digits then
      print_hex_loop i v digits uart
    else
      print_hex_loop i v (i : Int) (print_char c uart)

/-- Source `print_hex`: `for (int i = 7; i >= 0; i--)`. -/
def print_hex (v : Nat) (digits : Int) (uart : List Nat) : List Nat :=
  print_hex_loop 8 v digits uart

/-! ## `print_dec` (firmware.c:68-105) -/

/-- Source `print_dec`: the `>=1000` guard, then the three `if / else if`
chains for hundreds, tens and units. Each chain emits at most one digit and
subtracts its threshold from `v`; only the units chain has a final `else`. -/
def print_dec (v : Nat) (uart : List Nat) : List Nat :=
  if v ≥ 1000 then
    print (cstr (bytes ">=1000")) uart
  else
    let (v, uart) :=
      if v ≥ 900 then (v - 900, print_char 57 uart)
      else if v ≥ 800 then (v - 800, print_char 56 uart)
      else if v ≥ 700 then (v - 700, print_char 55 uart)
      else if v ≥ 600 then (v - 600, print_char 54 uart)
      else if v ≥ 500 then (v - 500, print_char 53 uart)
      else if v ≥ 400 then (v - 400, print_char 52 uart)
      else if v ≥ 300 then (v - 300, print_char 51 uart)
      else if v ≥ 200 then (v - 200, print_char 50 uart)
      else if v ≥ 100 then (v - 100, print_char 49 uart)
      else (v, uart)
    let (v, uart) :=
      if v ≥ 90 then (v - 90, print_char 57 uart)
      else if v ≥ 80 then (v - 80, print_char 56 uart)
      else if v ≥ 70 then (v - 70, print_char 55 uart)
      else if v ≥ 60 then (v - 60, print_char 54 uart)
      else if v ≥ 50 then (v - 50, print_char 53 uart)
      else if v ≥ 40 then (v - 40, print_char 52 uart)
      else if v ≥ 30 then (v - 30, print_char 51 uart)
      else if v ≥ 20 then (v - 20, print_char 50 uart)
      else if v ≥ 10 then (v - 10, print_char 49 uart)
      else (v, uart)
    if v ≥ 9 then print_char 57 uart
    else if v ≥ 8 then print_char 56 uart
    else if v ≥ 7 then print_char 55 uart
    else if v ≥ 6 then print_char 54 uart
    else if v ≥ 5 then print_char 53 uart
    else if v ≥ 4 then print_char 52 uart
    else if v ≥ 3 then print_char 51 uart
    else if v ≥ 2 then print_char 50 uart
    else if v ≥ 1 then print_char 49 uart
    else print_char 48 uart

/-! ## The polling loop of `main` (firmware.c:129-154) -/

/-- Values the sniffer registers `uspi->counter`, `uspi->cmd`, `uspi->addr` and
`uspi->len_sr` return when read during one loop iteration (each is read at most
once per iteration). -/
structure uspispy_t where
  counter : Nat
  cmd : Nat
  addr : Nat
  len_sr : Nat
deriving DecidableEq, Repr

/-- The two local variables of `main` that live across iterations. -/
structure LoopState where
  last_report : Nat
  last_cmd : Nat
deriving DecidableEq, Repr

/-- Subtraction of two `uint32_t` values: the result wraps modulo `2 ^ 32`. -/
def sub32 (a b : Nat) : Nat := (a % 2 ^ 32 + 2 ^ 32 - b % 2 ^ 32) % 2 ^ 32

/-- One iteration of the `while(1)` body of `main`: `now` is the value returned
by `rdcycle()`, `uspi` the values of the register reads. Returns the loop
variables and the UART at the end of the iteration (at `continue` or at the end
of the body). -/
def loop_body (now : Nat) (uspi : uspispy_t) (st : LoopState) (uart : List Nat) :
    LoopState × List Nat :=
  let (last_report, uart) :=
    if sub32 now st.last_report > 16000000 then
      (now, print (cstr (bytes "---\n")) (print_hex uspi.counter 8 uart))
    else
      (st.last_report, uart)
  let cmd := uspi.cmd
  if cmd = st.last_cmd then
    (⟨last_report, st.last_cmd⟩, uart)
  else
    let uart := print_hex (cmd >>> 8) 6 uart
    let uart := print_char 32 uart
    let uart := print_hex (cmd &&& 0xFF) 2 uart
    let uart := print_char 32 uart
    let uart := print_hex uspi.addr 6 uart
    let uart := print_char 32 uart
    let uart := print_hex (uspi.len_sr >>> 8) 4 uart
    let uart := print_char 10 uart
    (⟨now, cmd⟩, uart)

/-- A finite prefix of the infinite loop: the iterations are run in order on
the successive readings `(now, uspi)` of the hardware. -/
def main_loop : List (Nat × uspispy_t) → LoopState → List Nat → LoopState × List Nat
  | [], st, uart => (st, uart)
  | (now, uspi) :: rest, st, uart =>
    let r := loop_body now uspi st uart
    main_loop rest r.1 r.2

/-- Source `main` from the initialisation `last_report = 0; last_cmd = 0;` on,
run for the given readings, with nothing sent to the UART before. The two
stores before it (`reg_leds`, `reg_uart_clkdiv`) do not touch the UART data
register or the loop variables. -/
def main (readings : List (Nat × uspispy_t)) : LoopState × List Nat :=
  main_loop readings ⟨0, 0⟩ []

/-! ## Specification-side definitions -/

/-- Standard 8-digit lowercase hexadecimal representation of `v`, the most
significant nibble first. -/
def hex8 (v : Nat) : List Nat :=
  [7, 6, 5, 4, 3, 2, 1, 0].map (fun i => (Nat.digitChar (v / 16 ^ i % 16)).toNat)

/-- Value of one lowercase hexadecimal digit, `none` for any other byte. -/
def hexval (c : Nat) : Option Nat :=
  if 48 ≤ c ∧ c ≤ 57 then some (c - 48)
  else if 97 ≤ c ∧ c ≤ 102 then some (c - 87)
  else none

/-- Parse a string of lowercase hexadecimal digits, most significant first;
the empty string is `0`. -/
def parse_hex_from : Nat → List Nat → Option Nat
  | acc, [] => some acc
  | acc, c :: cs =>
    match hexval c with
    | some d => parse_hex_from (acc * 16 + d) cs
    | none => none

/-- Parse a string of lowercase hexadecimal digits; the empty string is `0`. -/
def parse_hex (s : List Nat) : Option Nat := parse_hex_from 0 s

/-- Number of hexadecimal digits of `v` without leading zeros (`0` for `0`). -/
def hex_significant (v : Nat) : Nat := (Nat.digits 16 v).length

/-- The heartbeat line as it appears on the wire: the 8 hex digits of the
counter, `---`, carriage return, line feed. -/
def heartbeat_line (counter : Nat) : List Nat :=
  hex8 counter ++ [45, 45, 45, 13, 10]

/-- Bytes sent for a NUL-free string, one `print_char` after the other. -/
def print_chars (s : List Nat) : List Nat := s.flatMap (fun c => print_char c [])

/-- The `n` low hexadecimal digits of `v`, the most significant first. -/
def hexlow (n v : Nat) : List Nat :=
  (List.range n).reverse.map (fun i => hexdigit (v / 16 ^ i % 16))

/-- Decimal representation of `v` without leading zeros (`0` for zero), as
produced by the library function `Nat.repr`. -/
def dec_repr (v : Nat) : List Nat := bytes (Nat.repr v)

/-- The command trace line as the loop body composes it: the four `print_hex`
fields separated by single spaces, then the newline (carriage return, line feed
on the wire). -/
def trace_line (cmd addr len_sr : Nat) : List Nat :=
  print_hex (cmd >>> 8) 6 [] ++ [32] ++ print_hex (cmd &&& 0xFF) 2 [] ++ [32] ++
    print_hex addr 6 [] ++ [32] ++ print_hex (len_sr >>> 8) 4 [] ++ [13, 10]

/-- The heartbeat is due: more than 16,000,000 cycles since `last_report`,
the difference taken modulo `2 ^ 32`. -/
def heartbeat_due (now last_report : Nat) : Prop :=
  ((now : Int) - (last_report : Int)) % 2 ^ 32 > 16000000

instance (now last_report : Nat) : Decidable (heartbeat_due now last_report) := by
  unfold heartbeat_due
  infer_instance

/-- A lowercase hexadecimal digit: `'0'..'9'` or `'a'..'f'`. -/
def is_hex_digit (c : Nat) : Prop := (48 ≤ c ∧ c ≤ 57) ∨ (97 ≤ c ∧ c ≤ 102)

instance (c : Nat) : Decidable (is_hex_digit c) := by
  unfold is_hex_digit
  infer_instance

/-- The fixed wire shape of a command trace line: exactly 6, 2, 6 and 4
hexadecimal digits separated by single spaces, then carriage return, line feed. -/
def trace_shape (l : List Nat) : Prop :=
  ∃ f1 f2 f3 f4 : List Nat,
    l = f1 ++ [32] ++ f2 ++ [32] ++ f3 ++ [32] ++ f4 ++ [13, 10] ∧
    f1.length = 6 ∧ f2.length = 2 ∧ f3.length = 6 ∧ f4.length = 4 ∧
    (∀ c ∈ f1 ++ f2 ++ f3 ++ f4, is_hex_digit c)

/-- Some heartbeat line: the line of a 32-bit counter value. -/
def is_heartbeat_line (l : List Nat) : Prop :=
  ∃ counter, counter < 2 ^ 32 ∧ l = heartbeat_line counter

/-- Some command trace line: the line of 32-bit register values. -/
def is_trace_line (l : List Nat) : Prop :=
  ∃ cmd addr len_sr, cmd < 2 ^ 32 ∧ addr < 2 ^ 32 ∧ len_sr < 2 ^ 32 ∧
    l = trace_line cmd addr len_sr

/-- Bytes that each iteration of a run appends to the UART, one list per
iteration, in order. -/
def iteration_outputs : List (Nat × uspispy_t) → LoopState → List (List Nat)
  | [], _ => []
  | (now, uspi) :: rest, st =>
    (loop_body now uspi st []).2 :: iteration_outputs rest (loop_body now uspi st []).1

/-- The heartbeat text as `main` composes it: `print_hex (counter, 8)` and then
`print ("---\n")`. -/
def heartbeat_text (counter : Nat) : List Nat :=
  print_hex counter 8 [] ++ [45, 45, 45, 13, 10]

/-- Timestamp of the last iteration of a run that sent at least one byte,
`init` if none did; the run is given as the list of (timestamp, bytes sent),
one pair per iteration. -/
def last_emitting (init : Nat) : List (Nat × List Nat) → Nat
  | [] => init
  | (t, o) :: rest => last_emitting (if o = [] then init else t) rest

/-- One `if / else if` chain of `print_dec` without a final `else`, for the
decimal place `unit` (100 for the hundreds, 10 for the tens): the first
threshold `k * unit` reached sends the digit `k` and is subtracted from `v`. -/
def dec_chain (unit v : Nat) (uart : List Nat) : Nat × List Nat :=
  if v ≥ 9 * unit then (v - 9 * unit, print_char 57 uart)
  else if v ≥ 8 * unit then (v - 8 * unit, print_char 56 uart)
  else if v ≥ 7 * unit then (v - 7 * unit, print_char 55 uart)
  else if v ≥ 6 * unit then (v - 6 * unit, print_char 54 uart)
  else if v ≥ 5 * unit then (v - 5 * unit, print_char 53 uart)
  else if v ≥ 4 * unit then (v - 4 * unit, print_char 52 uart)
  else if v ≥ 3 * unit then (v - 3 * unit, print_char 51 uart)
  else if v ≥ 2 * unit then (v - 2 * unit, print_char 50 uart)
  else if v ≥ 1 * unit then (v - 1 * unit, print_char 49 uart)
  else (v, uart)

/-- The units chain of `print_dec`, the only one with a final `else`. -/
def dec_units (v : Nat) (uart : List Nat) : List Nat :=
  if v ≥ 9 then print_char 57 uart
  else if v ≥ 8 then print_char 56 uart
  else if v ≥ 7 then print_char 55 uart
  else if v ≥ 6 then print_char 54 uart
  else if v ≥ 5 then print_char 53 uart
  else if v ≥ 4 then print_char 52 uart
  else if v ≥ 3 then print_char 51 uart
  else if v ≥ 2 then print_char 50 uart
  else if v ≥ 1 then print_char 49 uart
  else print_char 48 uart

/-- Bytes the loop may put on the wire: lowercase hexadecimal digits, space,
`-`, carriage return and line feed. -/
def wire_byte (c : Nat) : Prop := is_hex_digit c ∨ c = 32 ∨ c = 45 ∨ c = 13 ∨ c = 10

/-- Every line feed of `l` has a carriage return immediately before it: whenever
`l` splits as `pre`, line feed, `post`, the part `pre` ends with a carriage
return. -/
def lf_after_cr (l : List Nat) : Prop :=
  ∀ pre post : List Nat, l = pre ++ 10 :: post → ∃ pre', pre = pre' ++ [13]

/-- A complete line: hexadecimal digits, spaces and dashes, then carriage
return and line feed. -/
def complete_line (l : List Nat) : Prop :=
  ∃ body : List Nat, l = body ++ [13, 10] ∧
    ∀ c ∈ body, is_hex_digit c ∨ c = 32 ∨ c = 45

/-- Read `cmd` back from a command trace line: the first 6 characters and the
2 characters after the first space are parsed as hexadecimal values `h` and `l`,
and the result is `h * 256 + l`. -/
def decode_cmd (line : List Nat) : Option Nat :=
  match parse_hex (line.take 6), parse_hex ((line.drop 7).take 2) with
  | some h, some l => some (h * 256 + l)
  | _, _ => none

theorem print_char_eq (c : Nat) (uart : List Nat) :
    print_char c uart = if c = 10 then uart ++ [13, 10] else uart ++ [c] := by
  rw [print_char]
  split
  · next h => subst h; rw [print_char]; simp
  · rfl

theorem print_char_append (c : Nat) (uart : List Nat) :
    print_char c uart = uart ++ print_char c [] := by
  simp only [print_char_eq]
  split <;> simp

theorem print_append (p uart : List Nat) : print p uart = uart ++ print p [] := by
  induction p generalizing uart with
  | nil => simp [print]
  | cons c p ih =>
    simp only [print]
    split
    · simp
    · rw [ih (print_char c uart), ih (print_char c []), print_char_append c uart,
        List.append_assoc]

theorem print_nul_free (s rest uart : List Nat) (hs : ∀ c ∈ s, c ≠ 0) :
    print (s ++ 0 :: rest) uart = uart ++ print_chars s := by
  induction s generalizing uart with
  | nil => simp [print, print_chars]
  | cons c s ih =>
    have hc : c ≠ 0 := hs c (List.mem_cons_self _ _)
    have hs2 : ∀ x ∈ s, x ≠ 0 := fun x hx => hs x (List.mem_cons_of_mem _ hx)
    rw [List.cons_append]
    simp only [print, hc, if_false]
    rw [ih _ hs2, print_char_append c uart]
    simp [print_chars, List.flatMap_cons]

/-! ### Nibbles and hexadecimal digits -/

theorem nibble_eq (v i : Nat) : (v >>> (4 * i)) &&& 15 = v / 16 ^ i % 16 := by
  have h15 : (15 : Nat) = 2 ^ 4 - 1 := by norm_num
  rw [Nat.shiftRight_eq_div_pow, h15, Nat.and_pow_two_sub_one_eq_mod, pow_mul]
  norm_num

theorem hexdigit_facts : ∀ n < 16, hexdigit n ≠ 10 ∧ (hexdigit n = 48 ↔ n = 0) ∧
    hexdigit n = (Nat.digitChar n).toNat ∧ hexval (hexdigit n) = some n := by
  decide

theorem hexlow_zero (v : Nat) : hexlow 0 v = [] := by simp [hexlow]

theorem hexlow_succ (n v : Nat) :
    hexlow (n + 1) v = hexdigit (v / 16 ^ n % 16) :: hexlow n v := by
  simp [hexlow, List.range_succ]

theorem hexlow_length (n v : Nat) : (hexlow n v).length = n := by simp [hexlow]

theorem print_char_hexdigit (n : Nat) (hn : n < 16) (uart : List Nat) :
    print_char (hexdigit n) uart = uart ++ [hexdigit n] := by
  rw [print_char_eq, if_neg (hexdigit_facts n hn).1]

/-- Once the threshold is above the index, every remaining nibble is sent. -/
theorem print_hex_loop_started (k v : Nat) (d : Int) (uart : List Nat) (h : (k : Int) ≤ d) :
    print_hex_loop k v d uart = uart ++ hexlow k v := by
  induction k generalizing d uart with
  | zero => simp [print_hex_loop, hexlow_zero]
  | succ k ih =>
    have hlt : (v / 16 ^ k % 16) < 16 := Nat.mod_lt _ (by norm_num)
    have hnot : ¬ (hexdigit (v / 16 ^ k % 16) = 48 ∧ (k : Int) ≥ d) := by
      push_cast at h
      intro hc
      omega
    simp only [print_hex_loop, nibble_eq, hnot, if_false]
    rw [ih (k : Int) _ le_rfl, print_char_hexdigit _ hlt, hexlow_succ]
    simp

theorem hex_significant_le (m n : Nat) (h : m < 16 ^ n) : hex_significant m ≤ n := by
  unfold hex_significant
  by_cases hm : m = 0
  · simp [hm]
  · rw [Nat.digits_len 16 m (by norm_num) hm]
    exact Nat.log_lt_of_lt_pow hm h

theorem lt_hex_significant (m k : Nat) (h : 16 ^ k ≤ m) : k < hex_significant m := by
  unfold hex_significant
  have h1 : m < 16 ^ (Nat.digits 16 m).length := Nat.lt_base_pow_length_digits (by norm_num)
  exact (Nat.pow_lt_pow_iff_right (by norm_num : 1 < 16)).1 (lt_of_le_of_lt h h1)

/-- The loop of `print_hex` from index `k - 1` down: it sends the low digits of
`v`, as many as the threshold asks for or as the low `k` nibbles need. -/
theorem print_hex_loop_eq (k v : Nat) (d : Int) (uart : List Nat) (hd : 0 ≤ d) :
    print_hex_loop k v d uart =
      uart ++ hexlow (max (min d.toNat k) (hex_significant (v % 16 ^ k))) v := by
  induction k generalizing uart with
  | zero => simp [print_hex_loop, hex_significant, hexlow_zero, Nat.mod_one]
  | succ k ih =>
    have hlt : (v / 16 ^ k % 16) < 16 := Nat.mod_lt _ (by norm_num)
    have hmod : v % 16 ^ (k + 1) = v % 16 ^ k + 16 ^ k * (v / 16 ^ k % 16) := Nat.mod_pow_succ
    have hle : hex_significant (v % 16 ^ (k + 1)) ≤ k + 1 :=
      hex_significant_le _ _ (Nat.mod_lt _ (by positivity))
    simp only [print_hex_loop, nibble_eq]
    by_cases hz : v / 16 ^ k % 16 = 0
    · have hc : hexdigit (v / 16 ^ k % 16) = 48 := ((hexdigit_facts _ hlt).2.1).2 hz
      have hmod2 : v % 16 ^ (k + 1) = v % 16 ^ k := by rw [hmod, hz]; simp
      by_cases hk : (k : Int) ≥ d
      · rw [if_pos ⟨hc, hk⟩, ih, hmod2]
        have : min d.toNat (k + 1) = min d.toNat k := by omega
        rw [this]
      · rw [if_neg (fun h => hk h.2), print_hex_loop_started k v k _ le_rfl,
          print_char_hexdigit _ hlt]
        have : max (min d.toNat (k + 1)) (hex_significant (v % 16 ^ (k + 1))) = k + 1 := by
          omega
        rw [this, hexlow_succ]
        simp
    · have hc : ¬ hexdigit (v / 16 ^ k % 16) = 48 := fun h => hz (((hexdigit_facts _ hlt).2.1).1 h)
      rw [if_neg (fun h => hc h.1), print_hex_loop_started k v k _ le_rfl,
        print_char_hexdigit _ hlt]
      have hge : 16 ^ k ≤ v % 16 ^ (k + 1) := by
        rw [hmod]
        have : 16 ^ k * 1 ≤ 16 ^ k * (v / 16 ^ k % 16) :=
          Nat.mul_le_mul_left _ (Nat.one_le_iff_ne_zero.2 hz)
        omega
      have hgt := lt_hex_significant _ _ hge
      have : max (min d.toNat (k + 1)) (hex_significant (v % 16 ^ (k + 1))) = k + 1 := by
        omega
      rw [this, hexlow_succ]
      simp

/-- Closed form of `print_hex` for a non-negative digit count. -/
theorem print_hex_eq (v : Nat) (d : Int) (uart : List Nat) (hv : v < 2 ^ 32) (hd : 0 ≤ d) :
    print_hex v d uart = uart ++ hexlow (max (min d.toNat 8) (hex_significant v)) v := by
  have h16 : (2 : Nat) ^ 32 = 16 ^ 8 := by norm_num
  rw [print_hex, print_hex_loop_eq 8 v d uart hd, Nat.mod_eq_of_lt (h16 ▸ hv)]

theorem print_hex_loop_append (k v : Nat) (d : Int) (uart : List Nat) :
    print_hex_loop k v d uart = uart ++ print_hex_loop k v d [] := by
  induction k generalizing d uart with
  | zero => simp [print_hex_loop]
  | succ k ih =>
    simp only [print_hex_loop]
    split
    · exact ih d uart
    · rw [ih (k : Int) (print_char _ uart), ih (k : Int) (print_char _ []),
        print_char_append _ uart, List.append_assoc]

theorem print_hex_append (v : Nat) (d : Int) (uart : List Nat) :
    print_hex v d uart = uart ++ print_hex v d [] :=
  print_hex_loop_append 8 v d uart

theorem hex8_eq_hexlow (v : Nat) : hex8 v = hexlow 8 v := by
  have hr : (List.range 8).reverse = [7, 6, 5, 4, 3, 2, 1, 0] := by decide
  unfold hex8 hexlow
  rw [hr]
  apply List.map_congr_left
  intro i _
  exact ((hexdigit_facts _ (Nat.mod_lt _ (by norm_num))).2.2.1).symm

theorem hexlow_pad (n j v : Nat) (h : v < 16 ^ n) :
    hexlow (n + j) v = List.replicate j 48 ++ hexlow n v := by
  induction j with
  | zero => simp
  | succ j ih =>
    have hz : v / 16 ^ (n + j) = 0 :=
      Nat.div_eq_of_lt (lt_of_lt_of_le h (Nat.pow_le_pow_right (by norm_num) (by omega)))
    have h0 : hexdigit 0 = 48 := by decide
    rw [← Nat.add_assoc, hexlow_succ, ih, hz, Nat.zero_mod, h0, List.replicate_succ,
      List.cons_append]

theorem parse_hex_from_hexlow (n v acc : Nat) :
    parse_hex_from acc (hexlow n v) = some (acc * 16 ^ n + v % 16 ^ n) := by
  induction n generalizing acc with
  | zero => simp [hexlow_zero, parse_hex_from, Nat.mod_one]
  | succ n ih =>
    have hlt : (v / 16 ^ n % 16) < 16 := Nat.mod_lt _ (by norm_num)
    rw [hexlow_succ, parse_hex_from, (hexdigit_facts _ hlt).2.2.2]
    simp only []
    rw [ih, Nat.mod_pow_succ]
    congr 1
    ring

theorem lt_pow_hex_significant (v : Nat) : v < 16 ^ hex_significant v :=
  Nat.lt_base_pow_length_digits (by norm_num)

theorem hex_significant_le_eight (v : Nat) (hv : v < 2 ^ 32) : hex_significant v ≤ 8 :=
  hex_significant_le v 8 (by norm_num at hv ⊢; exact hv)

/-! ## Claims about `print_hex` -/

/-- C1: for a 32-bit `v` and `0 ≤ d ≤ 8`, the string emitted by `print_hex v d`,
left-padded with `'0'` to 8 characters, is the standard 8-digit lowercase
hexadecimal representation of `v`; it is a suffix of that representation, every
omitted leading character is `'0'`, and parsing it as hexadecimal (the empty
string as 0) gives back `v`. The bytes are appended to what the UART held. -/
theorem print_hex_pads_to_hex8 (v : Nat) (d : Int) (uart : List Nat)
    (hv : v < 2 ^ 32) (hd0 : 0 ≤ d) (hd8 : d ≤ 8) :
    print_hex v d uart = uart ++ print_hex v d [] ∧
    List.replicate (8 - (print_hex v d []).length) 48 ++ print_hex v d [] = hex8 v ∧
    print_hex v d [] <:+ hex8 v ∧
    (∀ c ∈ (hex8 v).take (8 - (print_hex v d []).length), c = 48) ∧
    parse_hex (print_hex v d []) = some v := by
  have hs8 := hex_significant_le_eight v hv
  have hlt := lt_pow_hex_significant v
  obtain ⟨n, hn, hn8, hvn⟩ : ∃ n, print_hex v d [] = hexlow n v ∧ n ≤ 8 ∧ v < 16 ^ n := by
    refine ⟨max (min d.toNat 8) (hex_significant v), ?_, by omega, ?_⟩
    · rw [print_hex_eq v d [] hv hd0]; simp
    · exact lt_of_lt_of_le hlt (Nat.pow_le_pow_right (by norm_num) (le_max_right _ _))
  have hpad : List.replicate (8 - n) 48 ++ hexlow n v = hex8 v := by
    rw [hex8_eq_hexlow, ← hexlow_pad n (8 - n) v hvn]
    congr 1
    omega
  have _ := hd8
  rw [hn, hexlow_length]
  refine ⟨by rw [← hn]; exact print_hex_append v d uart, hpad, ⟨_, hpad⟩, ?_, ?_⟩
  · intro c hc
    rw [← hpad, List.take_left' (by simp)] at hc
    exact List.eq_of_mem_replicate hc
  · rw [parse_hex, parse_hex_from_hexlow, Nat.mod_eq_of_lt hvn]
    simp

/-- Instance of C1 at `v = 0x1a2b`, `d = 6`: the output is `001a2b`. -/
theorem print_hex_pads_to_hex8_witness :
    ((0x1a2b : Nat) < 2 ^ 32 ∧ (0 : Int) ≤ 6 ∧ (6 : Int) ≤ 8) ∧
    print_hex 0x1a2b 6 [] = bytes "001a2b" ∧
    (print_hex 0x1a2b 6 [10] = [10] ++ print_hex 0x1a2b 6 [] ∧
     List.replicate (8 - (print_hex 0x1a2b 6 []).length) 48 ++ print_hex 0x1a2b 6 [] =
       hex8 0x1a2b ∧
     print_hex 0x1a2b 6 [] <:+ hex8 0x1a2b ∧
     (∀ c ∈ (hex8 0x1a2b).take (8 - (print_hex 0x1a2b 6 []).length), c = 48) ∧
     parse_hex (print_hex 0x1a2b 6 []) = some 0x1a2b) :=
  ⟨by decide, by decide,
    print_hex_pads_to_hex8 0x1a2b 6 [10] (by decide) (by decide) (by decide)⟩

/-- C2: for a 32-bit `v` and `0 ≤ d ≤ 8`, `print_hex v d` emits exactly
`max d s` characters, `s` being the number of hexadecimal digits of `v` without
leading zeros (0 for `v = 0`); `print_hex 0 0` emits nothing and `print_hex v 8`
emits exactly 8 characters. -/
theorem print_hex_length (v : Nat) (d : Int) (hv : v < 2 ^ 32) (hd0 : 0 ≤ d) (hd8 : d ≤ 8) :
    ((print_hex v d []).length : Int) = max d (hex_significant v : Int) ∧
    print_hex 0 0 [] = [] ∧
    (print_hex v 8 []).length = 8 := by
  have hs8 := hex_significant_le_eight v hv
  refine ⟨?_, by decide, ?_⟩
  · rw [print_hex_eq v d [] hv hd0]
    simp only [List.nil_append, hexlow_length]
    omega
  · rw [print_hex_eq v 8 [] hv (by norm_num)]
    simp only [List.nil_append, hexlow_length]
    omega

/-- Instance of C2 at `v = 0x1a2b` (4 significant digits), `d = 2`: 4 characters. -/
theorem print_hex_length_witness :
    ((0x1a2b : Nat) < 2 ^ 32 ∧ (0 : Int) ≤ 2 ∧ (2 : Int) ≤ 8) ∧
    hex_significant 0x1a2b = 4 ∧
    (((print_hex 0x1a2b 2 []).length : Int) = max (2 : Int) (hex_significant 0x1a2b : Int) ∧
     print_hex 0 0 [] = [] ∧
     (print_hex 0x1a2b 8 []).length = 8) :=
  ⟨by decide, by simp [hex_significant],
    print_hex_length 0x1a2b 2 (by decide) (by decide) (by decide)⟩

/-! ## Claims about `print_dec` -/

/-- C3 (evaluation at the failing input): `print_dec 105` sends `15`, not the
decimal representation `105`: the tens chain has no final `else` and sends
nothing for a zero tens digit after a hundreds digit. -/
theorem print_dec_105 :
    print_dec 105 [] = bytes "15" ∧ dec_repr 105 = bytes "105" ∧
    print_dec 105 [] ≠ dec_repr 105 := by
  decide

/-- C4: for every `v ≥ 1000` (in particular every such 32-bit value),
`print_dec v` sends exactly the six characters `>=1000`, whatever `v` is. -/
theorem print_dec_saturates (v : Nat) (uart : List Nat) (hv : v ≥ 1000) :
    print_dec v uart = uart ++ bytes ">=1000" ∧
    (print_dec v []).length = 6 ∧
    print_dec v [] = print_dec 1000 [] := by
  have h : ∀ u, print_dec v u = u ++ bytes ">=1000" := by
    intro u
    have hp : print (cstr (bytes ">=1000")) [] = bytes ">=1000" := by decide
    rw [print_dec, if_pos hv, print_append, hp]
  have h1000 : print_dec 1000 [] = bytes ">=1000" := by decide
  refine ⟨h uart, ?_, ?_⟩
  · rw [h]; decide
  · rw [h, h1000]; rfl

/-- Instance of C4 at the largest 32-bit value. -/
theorem print_dec_saturates_witness :
    (4294967295 : Nat) ≥ 1000 ∧
    (print_dec 4294967295 [] = [] ++ bytes ">=1000" ∧
     (print_dec 4294967295 []).length = 6 ∧
     print_dec 4294967295 [] = print_dec 1000 []) :=
  ⟨by decide, print_dec_saturates 4294967295 [] (by decide)⟩

/-! ## Claims about `print_char` and `print` -/

/-- C5: `print_char 10` (newline) appends exactly carriage return `13` (0x0D)
then line feed `10` (0x0A); for every other byte `c`, carriage return included,
it appends exactly `c`. One nested recursive call always suffices, and none is
needed exactly when `c` is not the newline. -/
theorem print_char_spec (c : Nat) (uart : List Nat) :
    print_char c uart = (if c = 10 then uart ++ [0x0D, 0x0A] else uart ++ [c]) ∧
    print_char 13 uart = uart ++ [13] ∧
    print_char_fuel 1 c uart = some (print_char c uart) ∧
    (print_char_fuel 0 c uart = none ↔ c = 10) := by
  have h13 : print_char 13 uart = uart ++ [13] := by rw [print_char_eq]; simp
  refine ⟨print_char_eq c uart, h13, ?_, ?_⟩
  · by_cases hc : c = 10
    · subst hc
      simp [print_char_fuel, print_char_eq]
    · simp [print_char_fuel, print_char_eq, hc]
  · by_cases hc : c = 10 <;> simp [print_char_fuel, hc]

/-- C6: for a NUL-free string `s` (stored in memory with its terminating NUL
and anything after it), `print` appends the outputs of `print_char` for the
characters of `s`, in order; hence `print (s ++ t) = print s ++ print t`, and the
number of bytes sent is the length of `s` plus the number of newlines in `s`. -/
theorem print_spec (s t rest uart : List Nat) (hs : ∀ c ∈ s, c ≠ 0) (ht : ∀ c ∈ t, c ≠ 0) :
    print (s ++ 0 :: rest) uart = uart ++ s.flatMap (fun c => print_char c []) ∧
    print (cstr (s ++ t)) [] = print (cstr s) [] ++ print (cstr t) [] ∧
    (print (cstr s) []).length = s.length + s.count 10 := by
  have hst : ∀ c ∈ s ++ t, c ≠ 0 := by
    intro c hc
    rcases List.mem_append.1 hc with h | h
    · exact hs c h
    · exact ht c h
  have hlen : ∀ l : List Nat, (print_chars l).length = l.length + l.count 10 := by
    intro l
    induction l with
    | nil => simp [print_chars]
    | cons c l ih =>
      have hcons : print_chars (c :: l) = print_char c [] ++ print_chars l := by
        simp [print_chars, List.flatMap_cons]
      rw [hcons, List.length_append, ih, print_char_eq, List.count_cons]
      by_cases hc : c = 10
      · subst hc; simp; omega
      · have hc2 : ¬ (c == 10) = true := by simpa using hc
        simp [hc, hc2]; omega
  refine ⟨print_nul_free s rest uart hs, ?_, ?_⟩
  · simp only [cstr]
    rw [print_nul_free _ [] [] hst, print_nul_free _ [] [] hs, print_nul_free _ [] [] ht]
    simp [print_chars, List.flatMap_append]
  · simp only [cstr]
    rw [print_nul_free _ [] [] hs]
    simpa using hlen s

/-- Instance of C6 at `s = "a\nb"`, `t = "\n"`, with bytes in memory after the
NUL and a non-empty UART. -/
theorem print_spec_witness :
    ((∀ c ∈ [97, 10, 98], c ≠ 0) ∧ (∀ c ∈ [10], c ≠ 0)) ∧
    print ([97, 10, 98] ++ 0 :: [99]) [120] = [120, 97, 13, 10, 98] ∧
    (print ([97, 10, 98] ++ 0 :: [99]) [120] =
       [120] ++ [97, 10, 98].flatMap (fun c => print_char c []) ∧
     print (cstr ([97, 10, 98] ++ [10])) [] = print (cstr [97, 10, 98]) [] ++ print (cstr [10]) [] ∧
     (print (cstr [97, 10, 98]) []).length = [97, 10, 98].length + [97, 10, 98].count 10) :=
  ⟨by decide, by decide, print_spec [97, 10, 98] [10] [99] [120] (by decide) (by decide)⟩

/-! ## The loop body -/

theorem sub32_gt_iff (now last_report : Nat) :
    sub32 now last_report > 16000000 ↔ heartbeat_due now last_report := by
  unfold sub32 heartbeat_due
  norm_num
  omega

theorem print_dashes (uart : List Nat) :
    print (cstr (bytes "---\n")) uart = uart ++ [45, 45, 45, 13, 10] := by
  have h : print (cstr (bytes "---\n")) [] = [45, 45, 45, 13, 10] := by decide
  rw [print_append, h]

/-- What one iteration does, in closed form: the state it leaves and the bytes
it appends (the heartbeat text if due, then the trace line if `cmd` changed). -/
theorem loop_body_eq (now : Nat) (uspi : uspispy_t) (st : LoopState) (uart : List Nat) :
    loop_body now uspi st uart =
      (⟨if uspi.cmd = st.last_cmd then
          (if heartbeat_due now st.last_report then now else st.last_report)
        else now, uspi.cmd⟩,
       uart ++
        (if heartbeat_due now st.last_report then
          print_hex uspi.counter 8 [] ++ [45, 45, 45, 13, 10] else []) ++
        (if uspi.cmd = st.last_cmd then [] else trace_line uspi.cmd uspi.addr uspi.len_sr)) := by
  have h32 : (32 : Nat) ≠ 10 := by decide
  have htrace : ∀ u : List Nat,
      print_char 10 (print_hex (uspi.len_sr >>> 8) 4 (print_char 32 (print_hex uspi.addr 6
        (print_char 32 (print_hex (uspi.cmd &&& 0xFF) 2 (print_char 32
          (print_hex (uspi.cmd >>> 8) 6 u))))))) =
      u ++ trace_line uspi.cmd uspi.addr uspi.len_sr := by
    intro u
    simp only [print_char_eq, if_neg h32, if_true]
    rw [print_hex_append _ 4 (_ ++ [32]), print_hex_append _ 6 (_ ++ [32]),
      print_hex_append _ 2 (_ ++ [32]), print_hex_append _ 6 u]
    simp [trace_line]
  unfold loop_body
  by_cases hdue : heartbeat_due now st.last_report
  · have hs : sub32 now st.last_report > 16000000 := (sub32_gt_iff _ _).2 hdue
    by_cases hcmd : uspi.cmd = st.last_cmd
    · simp only [hs, hdue, hcmd, if_true, print_dashes]
      rw [print_hex_append]
      simp
    · simp only [hs, hdue, hcmd, if_true, if_false, print_dashes, htrace]
      rw [print_hex_append]
      simp
  · have hs : ¬ sub32 now st.last_report > 16000000 := fun h => hdue ((sub32_gt_iff _ _).1 h)
    by_cases hcmd : uspi.cmd = st.last_cmd
    · simp [hs, hdue, hcmd]
    · simp only [hs, hdue, hcmd, if_false, htrace]
      simp

theorem hexdigit_is_hex : ∀ n < 16, is_hex_digit (hexdigit n) := by
  decide

theorem hexlow_is_hex (n v c : Nat) (hc : c ∈ hexlow n v) : is_hex_digit c := by
  simp only [hexlow, List.mem_map] at hc
  obtain ⟨i, _, rfl⟩ := hc
  exact hexdigit_is_hex _ (Nat.mod_lt _ (by norm_num))

/-- A value that fits in `n ≤ 8` digits, printed with `digits = n`, gives
exactly its `n` low digits. -/
theorem print_hex_fixed (x n : Nat) (hx : x < 16 ^ n) (hn : n ≤ 8) :
    print_hex x (n : Int) [] = hexlow n x := by
  have hx32 : x < 2 ^ 32 := by
    have h16 : (2 : Nat) ^ 32 = 16 ^ 8 := by norm_num
    rw [h16]
    exact lt_of_lt_of_le hx (Nat.pow_le_pow_right (by norm_num) hn)
  have hs := hex_significant_le x n hx
  rw [print_hex_eq x n [] hx32 (by omega)]
  have : max (min (n : Int).toNat 8) (hex_significant x) = n := by
    simp only [Int.toNat_ofNat]
    omega
  rw [this, List.nil_append]

theorem print_hex_at_least (x n : Nat) (hx : x < 2 ^ 32) (hn : n ≤ 8) :
    print_hex x (n : Int) [] = hexlow (max n (hex_significant x)) x := by
  rw [print_hex_eq x n [] hx (by omega)]
  have : min (n : Int).toNat 8 = n := by
    simp only [Int.toNat_ofNat]
    omega
  rw [this, List.nil_append]

theorem print_hex_eight (x : Nat) (hx : x < 2 ^ 32) : print_hex x 8 [] = hex8 x := by
  have h := print_hex_fixed x 8 (by norm_num at hx ⊢; exact hx) le_rfl
  rw [hex8_eq_hexlow]
  exact h

theorem cmd_high_lt (cmd : Nat) (h : cmd < 2 ^ 32) : cmd >>> 8 < 16 ^ 6 := by
  rw [Nat.shiftRight_eq_div_pow]
  norm_num at h ⊢
  omega

theorem cmd_low_eq (cmd : Nat) : cmd &&& 0xFF = cmd % 256 := by
  have h255 : (0xFF : Nat) = 2 ^ 8 - 1 := by norm_num
  rw [h255, Nat.and_pow_two_sub_one_eq_mod]

theorem cmd_low_lt (cmd : Nat) : cmd &&& 0xFF < 16 ^ 2 := by
  rw [cmd_low_eq]
  norm_num
  omega

/-- The seventh byte of a trace line is the space that ends the first field. -/
theorem trace_line_seventh (cmd addr len_sr : Nat) (h : cmd < 2 ^ 32) :
    (trace_line cmd addr len_sr).getD 6 0 = 32 := by
  have h1 : print_hex (cmd >>> 8) 6 [] = hexlow 6 (cmd >>> 8) :=
    print_hex_fixed (cmd >>> 8) 6 (cmd_high_lt cmd h) (by norm_num)
  rw [trace_line, h1]
  simp [hexlow_succ, hexlow_zero]

/-- The seventh byte of a heartbeat line is a hexadecimal digit. -/
theorem heartbeat_line_seventh (counter : Nat) (t : List Nat) :
    is_hex_digit ((heartbeat_line counter ++ t).getD 6 0) := by
  have h : (heartbeat_line counter ++ t).getD 6 0 = hexdigit (counter / 16 ^ 1 % 16) := by
    rw [heartbeat_line, hex8_eq_hexlow]
    simp [hexlow_succ, hexlow_zero]
  rw [h]
  exact hexdigit_is_hex _ (Nat.mod_lt _ (by norm_num))

theorem heartbeat_not_prefix_trace (counter cmd addr len_sr : Nat) (h : cmd < 2 ^ 32) :
    ¬ heartbeat_line counter <+: trace_line cmd addr len_sr := by
  rintro ⟨t, ht⟩
  have h1 := heartbeat_line_seventh counter t
  rw [ht, trace_line_seventh cmd addr len_sr h] at h1
  revert h1
  decide

theorem main_loop_append (a b : List (Nat × uspispy_t)) (st : LoopState) (uart : List Nat) :
    main_loop (a ++ b) st uart = main_loop b (main_loop a st uart).1 (main_loop a st uart).2 := by
  induction a generalizing st uart with
  | nil => simp [main_loop]
  | cons x a ih =>
    obtain ⟨now, uspi⟩ := x
    simp only [List.cons_append, main_loop]
    exact ih _ _

/-- The iteration in which `cmd` changed, in closed form. -/
theorem loop_body_changed_eq (now : Nat) (uspi : uspispy_t) (st : LoopState)
    (uart : List Nat) (hcounter : uspi.counter < 2 ^ 32) (hne : uspi.cmd ≠ st.last_cmd) :
    loop_body now uspi st uart =
      (⟨now, uspi.cmd⟩,
       uart ++ (if heartbeat_due now st.last_report then heartbeat_line uspi.counter else []) ++
        (print_hex (uspi.cmd >>> 8) 6 [] ++ [32] ++ print_hex (uspi.cmd &&& 0xFF) 2 [] ++ [32] ++
          print_hex uspi.addr 6 [] ++ [32] ++ print_hex (uspi.len_sr >>> 8) 4 [] ++
          print_char 10 [])) := by
  have hhb : print_hex uspi.counter 8 [] ++ [45, 45, 45, 13, 10] = heartbeat_line uspi.counter := by
    rw [print_hex_eight _ hcounter, heartbeat_line]
  have hnl : print_char 10 [] = [13, 10] := by decide
  rw [loop_body_eq, hhb, if_neg hne, if_neg hne, hnl, trace_line]

/-! ## Claims about the loop body -/

/-- C7: one iteration emits a heartbeat if and only if
`(now - last_report) mod 2 ^ 32 > 16000000`; then the heartbeat comes first in
the iteration's output and is the 8 hexadecimal digits of the counter, `---`,
carriage return, line feed, and `last_report` becomes `now`. From
`last_report = 0`, at `now = 20000000` with `cmd = last_cmd = 0`, the output is
exactly one heartbeat line. -/
theorem loop_body_heartbeat (now : Nat) (uspi : uspispy_t) (st : LoopState)
    (hcounter : uspi.counter < 2 ^ 32) (hcmd : uspi.cmd < 2 ^ 32) :
    (heartbeat_line uspi.counter <+: (loop_body now uspi st []).2 ↔
      heartbeat_due now st.last_report) ∧
    (∀ uart, (loop_body now uspi st uart).2 =
      uart ++ (if heartbeat_due now st.last_report then heartbeat_line uspi.counter else []) ++
        (if uspi.cmd = st.last_cmd then [] else trace_line uspi.cmd uspi.addr uspi.len_sr)) ∧
    (heartbeat_due now st.last_report → (loop_body now uspi st []).1.last_report = now) ∧
    (st = ⟨0, 0⟩ → now = 20000000 → uspi.cmd = 0 →
      loop_body now uspi st [] = (⟨20000000, 0⟩, heartbeat_line uspi.counter)) := by
  have hhb : print_hex uspi.counter 8 [] ++ [45, 45, 45, 13, 10] = heartbeat_line uspi.counter := by
    rw [print_hex_eight _ hcounter, heartbeat_line]
  have hout : ∀ uart, (loop_body now uspi st uart).2 =
      uart ++ (if heartbeat_due now st.last_report then heartbeat_line uspi.counter else []) ++
        (if uspi.cmd = st.last_cmd then [] else trace_line uspi.cmd uspi.addr uspi.len_sr) := by
    intro uart
    rw [loop_body_eq, hhb]
  refine ⟨?_, hout, ?_, ?_⟩
  · rw [hout []]
    constructor
    · intro hp
      by_contra hdue
      rw [if_neg hdue] at hp
      by_cases hc : uspi.cmd = st.last_cmd
      · rw [if_pos hc] at hp
        have := List.IsPrefix.length_le hp
        simp [heartbeat_line, hex8] at this
      · rw [if_neg hc] at hp
        exact heartbeat_not_prefix_trace _ _ _ _ hcmd (by simpa using hp)
    · intro hdue
      rw [if_pos hdue, List.nil_append]
      exact List.prefix_append _ _
  · intro hdue
    rw [loop_body_eq]
    simp [hdue]
  · intro hst hn hc
    subst hst hn
    have hdue : heartbeat_due 20000000 0 := by decide
    rw [loop_body_eq, hhb]
    simp [hdue, hc]

/-- Instance of C7: from `last_report = 0`, at `now = 20000000`, counter `0x1f`,
`cmd = last_cmd = 0`: the heartbeat is due and `0000001f---` is sent. -/
theorem loop_body_heartbeat_witness :
    ((0x1f : Nat) < 2 ^ 32 ∧ (0 : Nat) < 2 ^ 32) ∧
    loop_body 20000000 ⟨0x1f, 0, 7, 9⟩ ⟨0, 0⟩ [] =
      (⟨20000000, 0⟩, bytes "0000001f---\r\n") ∧
    (heartbeat_line 0x1f <+: (loop_body 20000000 ⟨0x1f, 0, 7, 9⟩ ⟨0, 0⟩ []).2 ↔
      heartbeat_due 20000000 0) :=
  ⟨by decide, by decide,
    (loop_body_heartbeat 20000000 ⟨0x1f, 0, 7, 9⟩ ⟨0, 0⟩ (by decide) (by decide)).1⟩

/-- C8: when the `cmd` read differs from `last_cmd`, the iteration appends
(after the heartbeat line if one is due) exactly `print_hex (cmd >> 8) 6`, a
space, `print_hex (cmd & 0xFF) 2`, a space, `print_hex addr 6`, a space,
`print_hex (len_sr >> 8) 4` and a newline (carriage return, line feed on the
wire), and it ends with `last_cmd = cmd` and `last_report = now`. -/
theorem loop_body_cmd_changed (now : Nat) (uspi : uspispy_t) (st : LoopState)
    (uart : List Nat) (hcounter : uspi.counter < 2 ^ 32) (hne : uspi.cmd ≠ st.last_cmd) :
    loop_body now uspi st uart =
      (⟨now, uspi.cmd⟩,
       uart ++ (if heartbeat_due now st.last_report then heartbeat_line uspi.counter else []) ++
        (print_hex (uspi.cmd >>> 8) 6 [] ++ [32] ++ print_hex (uspi.cmd &&& 0xFF) 2 [] ++ [32] ++
          print_hex uspi.addr 6 [] ++ [32] ++ print_hex (uspi.len_sr >>> 8) 4 [] ++
          print_char 10 [])) ∧
    print_char 10 [] = [13, 10] ∧
    (loop_body now uspi st uart).1.last_cmd = uspi.cmd ∧
    (loop_body now uspi st uart).1.last_report = now := by
  have h := loop_body_changed_eq now uspi st uart hcounter hne
  refine ⟨h, by decide, ?_, ?_⟩
  · rw [h]
  · rw [h]

/-- Instance of C8: `cmd` changes from 0 to `0x12345678` with
`addr = 0xABCDEF`, `len_sr = 0x00FF0000`, no heartbeat due. -/
theorem loop_body_cmd_changed_witness :
    ((6 : Nat) < 2 ^ 32 ∧ (0x12345678 : Nat) ≠ 0) ∧
    loop_body 20000001 ⟨6, 0x12345678, 0xABCDEF, 0x00FF0000⟩ ⟨20000000, 0⟩ [] =
      (⟨20000001, 0x12345678⟩, bytes "123456 78 abcdef ff00\r\n") ∧
    loop_body 20000001 ⟨6, 0x12345678, 0xABCDEF, 0x00FF0000⟩ ⟨20000000, 0⟩ [] =
      (⟨20000001, 0x12345678⟩,
       [] ++ (if heartbeat_due 20000001 20000000 then heartbeat_line 6 else []) ++
        (print_hex (0x12345678 >>> 8) 6 [] ++ [32] ++ print_hex (0x12345678 &&& 0xFF) 2 [] ++
          [32] ++ print_hex 0xABCDEF 6 [] ++ [32] ++ print_hex (0x00FF0000 >>> 8) 4 [] ++
          print_char 10 [])) :=
  ⟨by decide, by decide,
    (loop_body_cmd_changed 20000001 ⟨6, 0x12345678, 0xABCDEF, 0x00FF0000⟩ ⟨20000000, 0⟩ []
      (by decide) (by decide)).1⟩

/-- C9: in a run of iterations from any state, after every iteration `last_cmd`
is the `cmd` read in that iteration; so an iteration whose `cmd` read equals the
read of the iteration just before it appends no trace line: nothing, or exactly
one heartbeat line when the heartbeat is due, however long the run before it.
From the initial state, an iteration at `now = 0` with `cmd = 0` sends nothing. -/
theorem no_trace_when_cmd_repeats (pre : List (Nat × uspispy_t)) (now₁ now₂ : Nat)
    (u₁ u₂ : uspispy_t) (st st₁ : LoopState) (uart uart₁ : List Nat)
    (hrun : main_loop (pre ++ [(now₁, u₁)]) st uart = (st₁, uart₁))
    (hcounter : u₂.counter < 2 ^ 32) (heq : u₂.cmd = u₁.cmd) :
    st₁.last_cmd = u₁.cmd ∧
    main_loop (pre ++ [(now₁, u₁), (now₂, u₂)]) st uart = loop_body now₂ u₂ st₁ uart₁ ∧
    (loop_body now₂ u₂ st₁ uart₁).2 =
      uart₁ ++ (if heartbeat_due now₂ st₁.last_report then heartbeat_line u₂.counter else []) ∧
    (loop_body now₂ u₂ st₁ uart₁).1.last_cmd = u₂.cmd ∧
    (∀ counter addr len_sr, main [(0, ⟨counter, 0, addr, len_sr⟩)] = (⟨0, 0⟩, [])) := by
  have hhb : print_hex u₂.counter 8 [] ++ [45, 45, 45, 13, 10] = heartbeat_line u₂.counter := by
    rw [print_hex_eight _ hcounter, heartbeat_line]
  have hinv : st₁.last_cmd = u₁.cmd := by
    rw [main_loop_append] at hrun
    simp only [main_loop] at hrun
    rw [loop_body_eq] at hrun
    have := congrArg (fun r => r.1.last_cmd) hrun
    simpa using this.symm
  have hstep : main_loop (pre ++ [(now₁, u₁), (now₂, u₂)]) st uart =
      loop_body now₂ u₂ st₁ uart₁ := by
    have hsplit : pre ++ [(now₁, u₁), (now₂, u₂)] = (pre ++ [(now₁, u₁)]) ++ [(now₂, u₂)] := by
      simp
    rw [hsplit, main_loop_append, hrun]
    simp [main_loop]
  have hc : u₂.cmd = st₁.last_cmd := by rw [heq, hinv]
  refine ⟨hinv, hstep, ?_, ?_, ?_⟩
  · rw [loop_body_eq, hhb]
    simp only [if_pos hc, List.append_nil]
  · rw [loop_body_eq]
  · intro counter addr len_sr
    have hnd : ¬ heartbeat_due 0 0 := by decide
    simp [main, main_loop, loop_body_eq, hnd]

/-- Instance of C9: after a run in which `cmd` became `0x0b`, a second read of
`0x0b` (with other `addr` and `len_sr`) leaves the UART as it was. -/
theorem no_trace_when_cmd_repeats_witness :
    (main_loop ([(5, ⟨1, 0, 0, 0⟩)] ++ [(9, ⟨1, 0x0b, 0x10, 0x200⟩)]) ⟨0, 0⟩ [] =
        (⟨9, 0x0b⟩, bytes "000000 0b 000010 0002\r\n") ∧
      (2 : Nat) < 2 ^ 32 ∧ (0x0b : Nat) = 0x0b) ∧
    (loop_body 12 ⟨2, 0x0b, 0x20, 0x300⟩ ⟨9, 0x0b⟩ (bytes "000000 0b 000010 0002\r\n")).2 =
      bytes "000000 0b 000010 0002\r\n" ∧
    (loop_body 12 ⟨2, 0x0b, 0x20, 0x300⟩ ⟨9, 0x0b⟩ (bytes "000000 0b 000010 0002\r\n")).2 =
      bytes "000000 0b 000010 0002\r\n" ++
        (if heartbeat_due 12 9 then heartbeat_line 2 else []) :=
  ⟨by decide, by decide,
    (no_trace_when_cmd_repeats [(5, ⟨1, 0, 0, 0⟩)] 9 12 ⟨1, 0x0b, 0x10, 0x200⟩
      ⟨2, 0x0b, 0x20, 0x300⟩ ⟨0, 0⟩ ⟨9, 0x0b⟩ [] (bytes "000000 0b 000010 0002\r\n")
      (by decide) (by decide) (by decide)).2.2.1⟩

/-! ## The shape of the trace line -/

theorem trace_shape_length (l : List Nat) (h : trace_shape l) : l.length = 23 := by
  obtain ⟨f1, f2, f3, f4, rfl, h1, h2, h3, h4, _⟩ := h
  simp [h1, h2, h3, h4]

/-- C10 (counterexample): the iteration from the initial state that reads
`cmd = 1`, `addr = 0x1000000`, `len_sr = 0` sends a trace line whose address
field has 7 digits, so the line does not have the fixed 6-2-6-4 shape. -/
theorem trace_shape_fails_wide_addr :
    (loop_body 0 ⟨0, 1, 0x1000000, 0⟩ ⟨0, 0⟩ []).2 = bytes "000000 01 1000000 0000\r\n" ∧
    ¬ trace_shape (loop_body 0 ⟨0, 1, 0x1000000, 0⟩ ⟨0, 0⟩ []).2 := by
  have h : (loop_body 0 ⟨0, 1, 0x1000000, 0⟩ ⟨0, 0⟩ []).2 =
      bytes "000000 01 1000000 0000\r\n" := by decide
  refine ⟨h, ?_⟩
  intro hs
  have hl := trace_shape_length _ hs
  rw [h] at hl
  revert hl
  decide

/-- C10 (amended): for 32-bit register values, the trace line of an iteration
whose `cmd` read differs from `last_cmd` is four fields of hexadecimal digits
separated by single spaces and ended by carriage return, line feed; the first
two fields have exactly 6 and 2 digits, the address field has
`max 6 (digits of addr)` digits (6 to 8) and the length field
`max 4 (digits of len_sr >> 8)` digits (4 to 6). The line has the fixed
6-2-6-4 shape exactly when `addr < 2 ^ 24` and `len_sr < 2 ^ 24`. -/
theorem trace_line_fields (now : Nat) (uspi : uspispy_t) (st : LoopState) (uart : List Nat)
    (hcounter : uspi.counter < 2 ^ 32) (hcmd : uspi.cmd < 2 ^ 32)
    (haddr : uspi.addr < 2 ^ 32) (hlen : uspi.len_sr < 2 ^ 32)
    (hne : uspi.cmd ≠ st.last_cmd) :
    ∃ f1 f2 f3 f4 : List Nat,
      (loop_body now uspi st uart).2 =
        uart ++ (if heartbeat_due now st.last_report then heartbeat_line uspi.counter else []) ++
          (f1 ++ [32] ++ f2 ++ [32] ++ f3 ++ [32] ++ f4 ++ [13, 10]) ∧
      f1.length = 6 ∧ f2.length = 2 ∧
      f3.length = max 6 (hex_significant uspi.addr) ∧ f3.length ≤ 8 ∧
      f4.length = max 4 (hex_significant (uspi.len_sr >>> 8)) ∧ f4.length ≤ 6 ∧
      (∀ c ∈ f1 ++ f2 ++ f3 ++ f4, is_hex_digit c) ∧
      (trace_shape (f1 ++ [32] ++ f2 ++ [32] ++ f3 ++ [32] ++ f4 ++ [13, 10]) ↔
        (uspi.addr < 2 ^ 24 ∧ uspi.len_sr < 2 ^ 24)) := by
  have h16_6 : (16 : Nat) ^ 6 = 2 ^ 24 := by norm_num
  have hlen_lt : uspi.len_sr >>> 8 < 16 ^ 6 := cmd_high_lt _ hlen
  have hlen32 : uspi.len_sr >>> 8 < 2 ^ 32 := lt_trans hlen_lt (by norm_num)
  have e1 : print_hex (uspi.cmd >>> 8) 6 [] = hexlow 6 (uspi.cmd >>> 8) :=
    print_hex_fixed _ 6 (cmd_high_lt _ hcmd) (by norm_num)
  have e2 : print_hex (uspi.cmd &&& 0xFF) 2 [] = hexlow 2 (uspi.cmd &&& 0xFF) :=
    print_hex_fixed _ 2 (cmd_low_lt _) (by norm_num)
  have e3 : print_hex uspi.addr 6 [] = hexlow (max 6 (hex_significant uspi.addr)) uspi.addr :=
    print_hex_at_least _ 6 haddr (by norm_num)
  have e4 : print_hex (uspi.len_sr >>> 8) 4 [] =
      hexlow (max 4 (hex_significant (uspi.len_sr >>> 8))) (uspi.len_sr >>> 8) :=
    print_hex_at_least _ 4 hlen32 (by norm_num)
  have hs3 : hex_significant uspi.addr ≤ 8 := hex_significant_le_eight _ haddr
  have hs4 : hex_significant (uspi.len_sr >>> 8) ≤ 6 := hex_significant_le _ 6 hlen_lt
  have hnl : print_char 10 [] = [13, 10] := by decide
  refine ⟨hexlow 6 (uspi.cmd >>> 8), hexlow 2 (uspi.cmd &&& 0xFF),
    hexlow (max 6 (hex_significant uspi.addr)) uspi.addr,
    hexlow (max 4 (hex_significant (uspi.len_sr >>> 8))) (uspi.len_sr >>> 8),
    ?_, hexlow_length _ _, hexlow_length _ _, hexlow_length _ _, ?_, hexlow_length _ _, ?_, ?_, ?_⟩
  · rw [loop_body_changed_eq now uspi st uart hcounter hne, e1, e2, e3, e4, hnl]
  · rw [hexlow_length]; omega
  · rw [hexlow_length]; omega
  · intro c hc
    simp only [List.mem_append] at hc
    rcases hc with ((h | h) | h) | h <;> exact hexlow_is_hex _ _ c h
  · constructor
    · intro hs
      have hl := trace_shape_length _ hs
      simp only [List.length_append, hexlow_length, List.length_cons, List.length_nil] at hl
      have h3 : hex_significant uspi.addr ≤ 6 := by omega
      have h4 : hex_significant (uspi.len_sr >>> 8) ≤ 4 := by omega
      have ha : uspi.addr < 16 ^ 6 :=
        lt_of_lt_of_le (lt_pow_hex_significant _) (Nat.pow_le_pow_right (by norm_num) h3)
      have hb : uspi.len_sr >>> 8 < 16 ^ 4 :=
        lt_of_lt_of_le (lt_pow_hex_significant _) (Nat.pow_le_pow_right (by norm_num) h4)
      rw [Nat.shiftRight_eq_div_pow] at hb
      norm_num at ha hb ⊢
      omega
    · rintro ⟨ha, hb⟩
      have h3 : hex_significant uspi.addr ≤ 6 := hex_significant_le _ 6 (h16_6 ▸ ha)
      have h4 : hex_significant (uspi.len_sr >>> 8) ≤ 4 := by
        apply hex_significant_le
        rw [Nat.shiftRight_eq_div_pow]
        norm_num at hb ⊢
        omega
      refine ⟨_, _, _, _, rfl, hexlow_length _ _, hexlow_length _ _, ?_, ?_, ?_⟩
      · rw [hexlow_length]; omega
      · rw [hexlow_length]; omega
      · intro c hc
        simp only [List.mem_append] at hc
        rcases hc with ((h | h) | h) | h <;> exact hexlow_is_hex _ _ c h

/-- Instance of the amended C10 at `cmd = 0x12345678`, `addr = 0xABCDEF`,
`len_sr = 0x00FF0000`, from `last_cmd = 0`. -/
theorem trace_line_fields_witness :
    ((6 : Nat) < 2 ^ 32 ∧ (0x12345678 : Nat) < 2 ^ 32 ∧ (0xABCDEF : Nat) < 2 ^ 32 ∧
      (0x00FF0000 : Nat) < 2 ^ 32 ∧ (0x12345678 : Nat) ≠ 0) ∧
    ∃ f1 f2 f3 f4 : List Nat,
      (loop_body 20000001 ⟨6, 0x12345678, 0xABCDEF, 0x00FF0000⟩ ⟨20000000, 0⟩ []).2 =
        [] ++ (if heartbeat_due 20000001 20000000 then heartbeat_line 6 else []) ++
          (f1 ++ [32] ++ f2 ++ [32] ++ f3 ++ [32] ++ f4 ++ [13, 10]) ∧
      f1.length = 6 ∧ f2.length = 2 ∧
      f3.length = max 6 (hex_significant 0xABCDEF) ∧ f3.length ≤ 8 ∧
      f4.length = max 4 (hex_significant (0x00FF0000 >>> 8)) ∧ f4.length ≤ 6 ∧
      (∀ c ∈ f1 ++ f2 ++ f3 ++ f4, is_hex_digit c) ∧
      (trace_shape (f1 ++ [32] ++ f2 ++ [32] ++ f3 ++ [32] ++ f4 ++ [13, 10]) ↔
        ((0xABCDEF : Nat) < 2 ^ 24 ∧ (0x00FF0000 : Nat) < 2 ^ 24)) :=
  ⟨by decide,
    trace_line_fields 20000001 ⟨6, 0x12345678, 0xABCDEF, 0x00FF0000⟩ ⟨20000000, 0⟩ []
      (by decide) (by decide) (by decide) (by decide) (by decide)⟩

/-! ## Messages per iteration -/

theorem heartbeat_line_length (counter : Nat) : (heartbeat_line counter).length = 13 := by
  simp [heartbeat_line, hex8]

theorem trace_line_ne_nil (cmd addr len_sr : Nat) : trace_line cmd addr len_sr ≠ [] := by
  simp [trace_line]

theorem heartbeat_text_eq (counter : Nat) (h : counter < 2 ^ 32) :
    print_hex counter 8 [] ++ [45, 45, 45, 13, 10] = heartbeat_line counter := by
  rw [print_hex_eight _ h, heartbeat_line]

theorem heartbeat_then_trace_not_single (counter cmd addr len_sr : Nat) :
    ¬ (heartbeat_line counter ++ trace_line cmd addr len_sr = [] ∨
        is_heartbeat_line (heartbeat_line counter ++ trace_line cmd addr len_sr) ∨
        is_trace_line (heartbeat_line counter ++ trace_line cmd addr len_sr)) := by
  have hne := trace_line_ne_nil cmd addr len_sr
  rintro (h | ⟨c, _, h⟩ | ⟨c, a, l, hc, _, _, h⟩)
  · simp [hne] at h
  · have hl := congrArg List.length h
    rw [List.length_append, heartbeat_line_length, heartbeat_line_length] at hl
    have : (trace_line cmd addr len_sr).length = 0 := by omega
    exact hne (List.length_eq_zero.1 this)
  · have h7 := heartbeat_line_seventh counter (trace_line cmd addr len_sr)
    rw [h, trace_line_seventh c a l hc] at h7
    revert h7
    decide

/-- C11 (counterexample): from the initial state, the iteration at
`now = 20000000` that reads `cmd = 1` sends a heartbeat line and then a trace
line: its output is not empty, not one heartbeat line and not one trace line. -/
theorem loop_body_two_messages :
    (loop_body 20000000 ⟨0x1f, 1, 0, 0⟩ ⟨0, 0⟩ []).2 =
      heartbeat_line 0x1f ++ trace_line 1 0 0 ∧
    ¬ ((loop_body 20000000 ⟨0x1f, 1, 0, 0⟩ ⟨0, 0⟩ []).2 = [] ∨
        is_heartbeat_line (loop_body 20000000 ⟨0x1f, 1, 0, 0⟩ ⟨0, 0⟩ []).2 ∨
        is_trace_line (loop_body 20000000 ⟨0x1f, 1, 0, 0⟩ ⟨0, 0⟩ []).2) := by
  have hdue : heartbeat_due 20000000 0 := by decide
  have h : (loop_body 20000000 ⟨0x1f, 1, 0, 0⟩ ⟨0, 0⟩ []).2 =
      heartbeat_line 0x1f ++ trace_line 1 0 0 := by
    rw [loop_body_eq, heartbeat_text_eq _ (by decide)]
    simp [hdue]
  rw [h]
  exact ⟨rfl, heartbeat_then_trace_not_single _ _ _ _⟩

/-- C11 (amended): for a 32-bit counter, one iteration sends nothing (heartbeat
not due, `cmd` unchanged), exactly one heartbeat line (due, unchanged), exactly
one trace line (not due, changed), or one complete heartbeat line followed by
one complete trace line (due and changed); the two messages are never
interleaved. -/
theorem loop_body_messages (now : Nat) (uspi : uspispy_t) (st : LoopState)
    (hcounter : uspi.counter < 2 ^ 32) :
    (¬ heartbeat_due now st.last_report ∧ uspi.cmd = st.last_cmd ∧
      (loop_body now uspi st []).2 = []) ∨
    (heartbeat_due now st.last_report ∧ uspi.cmd = st.last_cmd ∧
      (loop_body now uspi st []).2 = heartbeat_line uspi.counter) ∨
    (¬ heartbeat_due now st.last_report ∧ uspi.cmd ≠ st.last_cmd ∧
      (loop_body now uspi st []).2 = trace_line uspi.cmd uspi.addr uspi.len_sr) ∨
    (heartbeat_due now st.last_report ∧ uspi.cmd ≠ st.last_cmd ∧
      (loop_body now uspi st []).2 =
        heartbeat_line uspi.counter ++ trace_line uspi.cmd uspi.addr uspi.len_sr) := by
  rw [loop_body_eq, heartbeat_text_eq _ hcounter]
  by_cases hdue : heartbeat_due now st.last_report <;>
    by_cases hc : uspi.cmd = st.last_cmd <;> simp [hdue, hc]

/-- Instance of the amended C11 at the input of its counterexample: heartbeat
due and `cmd` changed, so the fourth case holds. -/
theorem loop_body_messages_witness :
    (0x1f : Nat) < 2 ^ 32 ∧
    (heartbeat_due 20000000 0 ∧ (1 : Nat) ≠ 0) ∧
    ((¬ heartbeat_due 20000000 0 ∧ (1 : Nat) = 0 ∧
      (loop_body 20000000 ⟨0x1f, 1, 0, 0⟩ ⟨0, 0⟩ []).2 = []) ∨
    (heartbeat_due 20000000 0 ∧ (1 : Nat) = 0 ∧
      (loop_body 20000000 ⟨0x1f, 1, 0, 0⟩ ⟨0, 0⟩ []).2 = heartbeat_line 0x1f) ∨
    (¬ heartbeat_due 20000000 0 ∧ (1 : Nat) ≠ 0 ∧
      (loop_body 20000000 ⟨0x1f, 1, 0, 0⟩ ⟨0, 0⟩ []).2 = trace_line 1 0 0) ∨
    (heartbeat_due 20000000 0 ∧ (1 : Nat) ≠ 0 ∧
      (loop_body 20000000 ⟨0x1f, 1, 0, 0⟩ ⟨0, 0⟩ []).2 =
        heartbeat_line 0x1f ++ trace_line 1 0 0)) :=
  ⟨by decide, by decide, loop_body_messages 20000000 ⟨0x1f, 1, 0, 0⟩ ⟨0, 0⟩ (by decide)⟩

/-! ## The end-to-end scenario, third step -/

/-- C12 (counterexample): in the state after the heartbeat at 20,000,000, the
iteration at `now = 20000001` that reads `cmd = 0x12345678`, `addr = 0xABCDEF`,
`len_sr = 0x00FF0000` does not send `001234 78 abcdef 00ff` and a newline,
neither with the carriage return of the wire nor without it. -/
theorem scenario_line_not_as_claimed :
    (loop_body 20000001 ⟨0, 0x12345678, 0xABCDEF, 0x00FF0000⟩ ⟨20000000, 0⟩ []).2 ≠
      bytes "001234 78 abcdef 00ff\r\n" ∧
    (loop_body 20000001 ⟨0, 0x12345678, 0xABCDEF, 0x00FF0000⟩ ⟨20000000, 0⟩ []).2 ≠
      bytes "001234 78 abcdef 00ff\n" := by
  decide

/-- C12 (amended): in the state `last_cmd = 0`, `last_report = 20000000`, an
iteration with the heartbeat not due that reads `cmd = 0x12345678`,
`addr = 0xABCDEF`, `len_sr = 0x00FF0000` sends exactly
`123456 78 abcdef ff00`, carriage return, line feed (`cmd >> 8 = 0x123456`,
`len_sr >> 8 = 0xff00`), and ends with `last_cmd = cmd`, `last_report = now`. -/
theorem scenario_trace_line (now counter : Nat) (hnot : ¬ heartbeat_due now 20000000) :
    loop_body now ⟨counter, 0x12345678, 0xABCDEF, 0x00FF0000⟩ ⟨20000000, 0⟩ [] =
      (⟨now, 0x12345678⟩, bytes "123456 78 abcdef ff00\r\n") := by
  have ht : trace_line 0x12345678 0xABCDEF 0x00FF0000 = bytes "123456 78 abcdef ff00\r\n" := by
    decide
  have hc : ¬ ((0x12345678 : Nat) = 0) := by decide
  rw [loop_body_eq]
  simp only [hnot, hc, if_false, ht, List.nil_append, List.append_nil]

/-- Instance of the amended C12 at `now = 20000001`. -/
theorem scenario_trace_line_witness :
    ¬ heartbeat_due 20000001 20000000 ∧
    loop_body 20000001 ⟨0, 0x12345678, 0xABCDEF, 0x00FF0000⟩ ⟨20000000, 0⟩ [] =
      (⟨20000001, 0x12345678⟩, bytes "123456 78 abcdef ff00\r\n") :=
  ⟨by decide, scenario_trace_line 20000001 0 (by decide)⟩

/-! ## Wraparound of the cycle counter -/

/-- C13: the heartbeat test `now - last_report > 16000000` of the loop body
depends only on `(now - last_report) mod 2 ^ 32`: shifting `now` and
`last_report` by the same offset `k` (modulo `2 ^ 32`) leaves the test and the
bytes sent by the iteration unchanged. With `last_report = 0xFFFFFFFF` and
`now = 16000000` (16,000,001 cycles later, across the overflow) the heartbeat is
sent although `now < last_report`. -/
theorem heartbeat_wraparound (now last_report k : Nat) (uspi : uspispy_t) (last_cmd : Nat)
    (uart : List Nat) :
    (sub32 now last_report > 16000000 ↔
      ((now : Int) - (last_report : Int)) % 2 ^ 32 > 16000000) ∧
    sub32 ((now + k) % 2 ^ 32) ((last_report + k) % 2 ^ 32) = sub32 now last_report ∧
    (loop_body ((now + k) % 2 ^ 32) uspi ⟨(last_report + k) % 2 ^ 32, last_cmd⟩ uart).2 =
      (loop_body now uspi ⟨last_report, last_cmd⟩ uart).2 ∧
    sub32 16000000 0xFFFFFFFF = 16000001 ∧
    loop_body 16000000 ⟨uspi.counter, last_cmd, uspi.addr, uspi.len_sr⟩ ⟨0xFFFFFFFF, last_cmd⟩
        uart =
      (⟨16000000, last_cmd⟩, uart ++ (print_hex uspi.counter 8 [] ++ [45, 45, 45, 13, 10])) := by
  have hshift : sub32 ((now + k) % 2 ^ 32) ((last_report + k) % 2 ^ 32) =
      sub32 now last_report := by
    unfold sub32
    norm_num
    omega
  have hdue : heartbeat_due ((now + k) % 2 ^ 32) ((last_report + k) % 2 ^ 32) ↔
      heartbeat_due now last_report := by
    rw [← sub32_gt_iff, ← sub32_gt_iff, hshift]
  have hfire : heartbeat_due 16000000 0xFFFFFFFF := by decide
  refine ⟨sub32_gt_iff now last_report, hshift, ?_, by decide, ?_⟩
  · rw [loop_body_eq, loop_body_eq]
    simp only [hdue]
  · rw [loop_body_eq]
    simp [hfire]

/-! ## Runs in which `cmd` does not change -/

theorem loop_body_frame (now : Nat) (uspi : uspispy_t) (st : LoopState) (uart : List Nat) :
    loop_body now uspi st uart =
      ((loop_body now uspi st []).1, uart ++ (loop_body now uspi st []).2) := by
  rw [loop_body_eq, loop_body_eq now uspi st []]
  simp

theorem loop_body_emits_iff (now : Nat) (uspi : uspispy_t) (st : LoopState) :
    (loop_body now uspi st []).2 = [] ↔
      (¬ heartbeat_due now st.last_report ∧ uspi.cmd = st.last_cmd) := by
  rw [loop_body_eq]
  by_cases hdue : heartbeat_due now st.last_report <;>
    by_cases hc : uspi.cmd = st.last_cmd <;> simp [hdue, hc, trace_line_ne_nil]

theorem loop_body_state (now : Nat) (uspi : uspispy_t) (st : LoopState) :
    (loop_body now uspi st []).1 =
      if (loop_body now uspi st []).2 = [] then st else ⟨now, uspi.cmd⟩ := by
  by_cases he : (loop_body now uspi st []).2 = []
  · rw [if_pos he]
    obtain ⟨hd, hc⟩ := (loop_body_emits_iff now uspi st).1 he
    rw [loop_body_eq]
    simp [hd, hc]
  · rw [if_neg he]
    have hne := fun h => he ((loop_body_emits_iff now uspi st).2 h)
    rw [loop_body_eq]
    by_cases hc : uspi.cmd = st.last_cmd
    · have hd : heartbeat_due now st.last_report := by
        by_contra hd
        exact hne ⟨hd, hc⟩
      simp [hd, hc]
    · simp [hc]

theorem last_report_run (readings : List (Nat × uspispy_t)) (st : LoopState)
    (uart : List Nat) :
    (main_loop readings st uart).1.last_report =
      last_emitting st.last_report
        (List.zip (readings.map Prod.fst) (iteration_outputs readings st)) := by
  induction readings generalizing st uart with
  | nil => simp [main_loop, iteration_outputs, last_emitting]
  | cons r rest ih =>
    obtain ⟨now, uspi⟩ := r
    simp only [main_loop, iteration_outputs, List.map_cons, List.zip_cons_cons, last_emitting]
    rw [ih, loop_body_frame now uspi st uart]
    congr 1
    rw [loop_body_state now uspi st]
    split <;> rfl

/-- C15: an iteration that sends at least one byte ends with
`last_report = now`, and an iteration that sends nothing leaves `last_report`
and `last_cmd` unchanged; so after any run `last_report` is the timestamp of the
last iteration that sent something (its initial value if none did). After an
iteration at `now` that sent a trace line, an iteration at `t'` with
`(t' - now) mod 2 ^ 32 ≤ 16000000` sends no heartbeat: nothing, or only a trace
line. -/
theorem last_report_tracks_output (now : Nat) (uspi : uspispy_t) (st : LoopState) :
    ((loop_body now uspi st []).2 ≠ [] → (loop_body now uspi st []).1.last_report = now) ∧
    ((loop_body now uspi st []).2 = [] → (loop_body now uspi st []).1 = st) ∧
    (∀ readings uart, (main_loop readings st uart).1.last_report =
      last_emitting st.last_report
        (List.zip (readings.map Prod.fst) (iteration_outputs readings st))) ∧
    (∀ t' u', uspi.cmd ≠ st.last_cmd → ¬ heartbeat_due t' now →
      (loop_body t' u' (loop_body now uspi st []).1 []).2 =
        if u'.cmd = uspi.cmd then [] else trace_line u'.cmd u'.addr u'.len_sr) := by
  refine ⟨?_, ?_, fun readings uart => last_report_run readings st uart, ?_⟩
  · intro h
    rw [loop_body_state, if_neg h]
  · intro h
    rw [loop_body_state, if_pos h]
  · intro t' u' hc hd
    have hst : (loop_body now uspi st []).1 = ⟨now, uspi.cmd⟩ := by
      rw [loop_body_eq]
      simp [hc]
    rw [hst, loop_body_eq]
    simp [hd]

/-- Instance of C15: the iteration at `now = 5` reads a changed `cmd = 3` and
sends a trace line; the next iteration, at `t' = 16000005`, reads the same
`cmd` and sends nothing. -/
theorem last_report_tracks_output_witness :
    ((loop_body 5 ⟨0, 3, 0, 0⟩ ⟨0, 0⟩ []).2 ≠ [] ∧ (3 : Nat) ≠ 0 ∧
      ¬ heartbeat_due 16000005 5) ∧
    (loop_body 5 ⟨0, 3, 0, 0⟩ ⟨0, 0⟩ []).1.last_report = 5 ∧
    (loop_body 16000005 ⟨9, 3, 1, 1⟩ (loop_body 5 ⟨0, 3, 0, 0⟩ ⟨0, 0⟩ []).1 []).2 =
      if (3 : Nat) = 3 then [] else trace_line 3 1 1 :=
  ⟨by decide,
    (last_report_tracks_output 5 ⟨0, 3, 0, 0⟩ ⟨0, 0⟩).1 (by decide),
    (last_report_tracks_output 5 ⟨0, 3, 0, 0⟩ ⟨0, 0⟩).2.2.2 16000005 ⟨9, 3, 1, 1⟩
      (by decide) (by decide)⟩

/-! ## Registers that are not read -/

/-- C16: when the `cmd` read equals `last_cmd`, the iteration does not depend
on `addr` and `len_sr`: two iterations from the same state with the same `now`,
counter and `cmd` but any `addr` and `len_sr` values send the same bytes and
end in the same state. -/
theorem loop_body_ignores_addr_len (now counter cmd addr₁ len₁ addr₂ len₂ : Nat)
    (st : LoopState) (uart : List Nat) (hc : cmd = st.last_cmd) :
    loop_body now ⟨counter, cmd, addr₁, len₁⟩ st uart =
      loop_body now ⟨counter, cmd, addr₂, len₂⟩ st uart := by
  rw [loop_body_eq, loop_body_eq]
  simp [hc]

/-- Instance of C16 with the heartbeat due and `cmd = last_cmd = 7`. -/
theorem loop_body_ignores_addr_len_witness :
    (7 : Nat) = (⟨0, 7⟩ : LoopState).last_cmd ∧
    loop_body 20000000 ⟨1, 7, 0xABCDEF, 0x1234⟩ ⟨0, 7⟩ [] =
      loop_body 20000000 ⟨1, 7, 0, 0xFFFFFFFF⟩ ⟨0, 7⟩ [] :=
  ⟨by decide, loop_body_ignores_addr_len 20000000 1 7 0xABCDEF 0x1234 0 0xFFFFFFFF ⟨0, 7⟩ []
    (by decide)⟩

/-! ## The three chains of `print_dec` -/

theorem print_char_ne (c : Nat) (uart : List Nat) (h : c ≠ 10) :
    print_char c uart = uart ++ [c] := by
  rw [print_char_eq, if_neg h]

/-- Below 1000, `print_dec` is its three chains run one after the other. -/
theorem print_dec_chains (v : Nat) (uart : List Nat) (hv : v < 1000) :
    print_dec v uart =
      dec_units (dec_chain 10 (dec_chain 100 v uart).1 (dec_chain 100 v uart).2).1
        (dec_chain 10 (dec_chain 100 v uart).1 (dec_chain 100 v uart).2).2 := by
  unfold print_dec
  rw [if_neg (by omega)]
  rfl

theorem dec_chain_hundreds (v : Nat) (uart : List Nat) (hv : v < 1000) :
    dec_chain 100 v uart = (v % 100, uart ++ if v ≥ 100 then [48 + v / 100] else []) := by
  unfold dec_chain
  simp only [print_char_ne _ _ (by decide : (57 : Nat) ≠ 10),
    print_char_ne _ _ (by decide : (56 : Nat) ≠ 10), print_char_ne _ _ (by decide : (55 : Nat) ≠ 10),
    print_char_ne _ _ (by decide : (54 : Nat) ≠ 10), print_char_ne _ _ (by decide : (53 : Nat) ≠ 10),
    print_char_ne _ _ (by decide : (52 : Nat) ≠ 10), print_char_ne _ _ (by decide : (51 : Nat) ≠ 10),
    print_char_ne _ _ (by decide : (50 : Nat) ≠ 10), print_char_ne _ _ (by decide : (49 : Nat) ≠ 10),
    print_char_ne _ _ (by decide : (48 : Nat) ≠ 10)]
  split_ifs <;>
    simp only [Prod.mk.injEq, List.append_cancel_left_eq, List.cons.injEq, and_true,
      List.append_nil, List.self_eq_append_right, List.append_right_eq_self,
      List.cons_ne_nil, and_false, reduceCtorEq] <;>
    omega

theorem dec_chain_tens (v : Nat) (uart : List Nat) (hv : v < 100) :
    dec_chain 10 v uart = (v % 10, uart ++ if v ≥ 10 then [48 + v / 10] else []) := by
  unfold dec_chain
  simp only [print_char_ne _ _ (by decide : (57 : Nat) ≠ 10),
    print_char_ne _ _ (by decide : (56 : Nat) ≠ 10), print_char_ne _ _ (by decide : (55 : Nat) ≠ 10),
    print_char_ne _ _ (by decide : (54 : Nat) ≠ 10), print_char_ne _ _ (by decide : (53 : Nat) ≠ 10),
    print_char_ne _ _ (by decide : (52 : Nat) ≠ 10), print_char_ne _ _ (by decide : (51 : Nat) ≠ 10),
    print_char_ne _ _ (by decide : (50 : Nat) ≠ 10), print_char_ne _ _ (by decide : (49 : Nat) ≠ 10),
    print_char_ne _ _ (by decide : (48 : Nat) ≠ 10)]
  split_ifs <;>
    simp only [Prod.mk.injEq, List.append_cancel_left_eq, List.cons.injEq, and_true,
      List.append_nil, List.self_eq_append_right, List.append_right_eq_self,
      List.cons_ne_nil, and_false, reduceCtorEq] <;>
    omega

theorem dec_units_eq (v : Nat) (uart : List Nat) (hv : v < 10) :
    dec_units v uart = uart ++ [48 + v] := by
  unfold dec_units
  simp only [print_char_ne _ _ (by decide : (57 : Nat) ≠ 10),
    print_char_ne _ _ (by decide : (56 : Nat) ≠ 10), print_char_ne _ _ (by decide : (55 : Nat) ≠ 10),
    print_char_ne _ _ (by decide : (54 : Nat) ≠ 10), print_char_ne _ _ (by decide : (53 : Nat) ≠ 10),
    print_char_ne _ _ (by decide : (52 : Nat) ≠ 10), print_char_ne _ _ (by decide : (51 : Nat) ≠ 10),
    print_char_ne _ _ (by decide : (50 : Nat) ≠ 10), print_char_ne _ _ (by decide : (49 : Nat) ≠ 10),
    print_char_ne _ _ (by decide : (48 : Nat) ≠ 10)]
  split_ifs <;>
    simp only [List.append_cancel_left_eq, List.cons.injEq, and_true] <;>
    omega

/-- Closed form of `print_dec` below 1000. -/
theorem print_dec_eq (v : Nat) (uart : List Nat) (hv : v < 1000) :
    print_dec v uart =
      uart ++ (if v ≥ 100 then [48 + v / 100] else []) ++
        (if v % 100 ≥ 10 then [48 + v % 100 / 10] else []) ++ [48 + v % 10] := by
  have h10 : v % 100 % 10 = v % 10 := by omega
  rw [print_dec_chains v uart hv, dec_chain_hundreds v uart hv]
  simp only []
  rw [dec_chain_tens (v % 100) _ (Nat.mod_lt _ (by norm_num))]
  simp only []
  rw [dec_units_eq _ _ (Nat.mod_lt _ (by norm_num)), h10]

set_option maxRecDepth 100000 in
theorem print_dec_repr_iff :
    ∀ v < 1000, (print_dec v [] = dec_repr v ↔ (v < 100 ∨ v % 100 ≥ 10)) := by
  decide

/-- C17: for `v < 1000`, `print_dec v` sends, in this order, the hundreds digit
of `v` if and only if `v ≥ 100`, the tens digit if and only if
`v mod 100 ≥ 10`, and always the units digit `v mod 10`. Every character before
the last is `'1'..'9'` (a `'0'` is sent only as units digit), the output has 1 to
3 characters, its last character is the units digit, and it is the decimal
representation of `v` exactly when `v < 100` or the tens digit is not zero, in
particular whenever `v < 100`. -/
theorem print_dec_tiers (v : Nat) (uart : List Nat) (hv : v < 1000) :
    print_dec v uart =
      uart ++ (if v ≥ 100 then [48 + v / 100] else []) ++
        (if v % 100 ≥ 10 then [48 + v % 100 / 10] else []) ++ [48 + v % 10] ∧
    (∀ c ∈ (print_dec v []).dropLast, 49 ≤ c ∧ c ≤ 57) ∧
    1 ≤ (print_dec v []).length ∧ (print_dec v []).length ≤ 3 ∧
    (print_dec v []).getLast? = some (48 + v % 10) ∧
    (v < 100 → print_dec v [] = dec_repr v) ∧
    (print_dec v [] = dec_repr v ↔ (v < 100 ∨ v % 100 ≥ 10)) := by
  have h := print_dec_eq v [] hv
  have hiff := print_dec_repr_iff v hv
  refine ⟨print_dec_eq v uart hv, ?_, ?_, ?_, ?_, fun h100 => hiff.2 (Or.inl h100), hiff⟩
  · rw [h]
    intro c hc
    rw [List.dropLast_concat] at hc
    by_cases h1 : v ≥ 100 <;> by_cases h2 : v % 100 ≥ 10 <;>
      simp [h1, h2] at hc <;> omega
  · rw [h]
    simp only [List.length_append, List.length_cons, List.length_nil]
    omega
  · rw [h]
    by_cases h1 : v ≥ 100 <;> by_cases h2 : v % 100 ≥ 10 <;> simp [h1, h2]
  · rw [h]
    simp

/-- Instance of C17 at `v = 105`: hundreds digit `1`, no tens digit, units
digit `5`. -/
theorem print_dec_tiers_witness :
    (105 : Nat) < 1000 ∧
    print_dec 105 [] = [49, 53] ∧
    (print_dec 105 [10] =
      [10] ++ (if 105 ≥ 100 then [48 + 105 / 100] else []) ++
        (if 105 % 100 ≥ 10 then [48 + 105 % 100 / 10] else []) ++ [48 + 105 % 10] ∧
    (∀ c ∈ (print_dec 105 []).dropLast, 49 ≤ c ∧ c ≤ 57) ∧
    1 ≤ (print_dec 105 []).length ∧ (print_dec 105 []).length ≤ 3 ∧
    (print_dec 105 []).getLast? = some (48 + 105 % 10) ∧
    (105 < 100 → print_dec 105 [] = dec_repr 105) ∧
    (print_dec 105 [] = dec_repr 105 ↔ (105 < 100 ∨ 105 % 100 ≥ 10))) :=
  ⟨by decide, by decide, print_dec_tiers 105 [10] (by decide)⟩

/-! ## Bytes on the wire -/

theorem print_hex_loop_is_hex (k v : Nat) (d : Int) :
    ∀ c ∈ print_hex_loop k v d [], is_hex_digit c := by
  induction k generalizing d with
  | zero => simp [print_hex_loop]
  | succ k ih =>
    have hlt : (v / 16 ^ k % 16) < 16 := Nat.mod_lt _ (by norm_num)
    simp only [print_hex_loop, nibble_eq]
    split
    · exact ih d
    · intro c hc
      rw [print_hex_loop_append, print_char_hexdigit _ hlt, List.nil_append,
        List.mem_append, List.mem_singleton] at hc
      rcases hc with h | h
      · rw [h]
        exact hexdigit_is_hex _ hlt
      · exact ih _ c h

theorem print_hex_is_hex (v : Nat) (d : Int) : ∀ c ∈ print_hex v d [], is_hex_digit c :=
  print_hex_loop_is_hex 8 v d

theorem heartbeat_text_complete (counter : Nat) : complete_line (heartbeat_text counter) := by
  refine ⟨print_hex counter 8 [] ++ [45, 45, 45], by simp [heartbeat_text], ?_⟩
  intro c hc
  rw [List.mem_append] at hc
  rcases hc with h | h
  · exact Or.inl (print_hex_is_hex _ _ c h)
  · simp at h
    exact Or.inr (Or.inr h)

theorem trace_line_complete (cmd addr len_sr : Nat) :
    complete_line (trace_line cmd addr len_sr) := by
  refine ⟨print_hex (cmd >>> 8) 6 [] ++ [32] ++ print_hex (cmd &&& 0xFF) 2 [] ++ [32] ++
    print_hex addr 6 [] ++ [32] ++ print_hex (len_sr >>> 8) 4 [], rfl, ?_⟩
  intro c hc
  simp only [List.mem_append, List.mem_singleton] at hc
  rcases hc with (((((h | h) | h) | h) | h) | h) | h
  · exact Or.inl (print_hex_is_hex _ _ c h)
  · exact Or.inr (Or.inl h)
  · exact Or.inl (print_hex_is_hex _ _ c h)
  · exact Or.inr (Or.inl h)
  · exact Or.inl (print_hex_is_hex _ _ c h)
  · exact Or.inr (Or.inl h)
  · exact Or.inl (print_hex_is_hex _ _ c h)

theorem lf_after_cr_nil : lf_after_cr [] := by
  intro pre post h
  simp at h

theorem lf_after_cr_append (a b : List Nat) (ha : lf_after_cr a) (hb : lf_after_cr b) :
    lf_after_cr (a ++ b) := by
  intro pre post h
  rcases List.append_eq_append_iff.1 h with ⟨a', hpre, hb'⟩ | ⟨c', ha', hc'⟩
  · obtain ⟨p, hp⟩ := hb a' post hb'
    exact ⟨a ++ p, by rw [hpre, hp, List.append_assoc]⟩
  · cases c' with
    | nil =>
      simp only [List.nil_append] at hc'
      obtain ⟨p, hp⟩ := hb [] post (by simpa using hc'.symm)
      simp at hp
    | cons x c'' =>
      simp only [List.cons_append, List.cons.injEq] at hc'
      obtain ⟨hx, _⟩ := hc'
      subst hx
      exact ha pre c'' ha'

theorem lf_after_cr_complete (l : List Nat) (h : complete_line l) : lf_after_cr l := by
  obtain ⟨body, rfl, hbody⟩ := h
  apply lf_after_cr_append
  · intro pre post hsplit
    have hmem : (10 : Nat) ∈ body := by rw [hsplit]; simp
    have hno : ¬ (is_hex_digit 10 ∨ (10 : Nat) = 32 ∨ (10 : Nat) = 45) := by decide
    exact absurd (hbody 10 hmem) hno
  · intro pre post hsplit
    match pre, hsplit with
    | [], h => simp at h
    | [x], h =>
      simp only [List.singleton_append, List.cons.injEq] at h
      exact ⟨[], by simp [h.1]⟩
    | x :: y :: rest, h => simp at h

theorem wire_byte_complete (l : List Nat) (h : complete_line l) : ∀ c ∈ l, wire_byte c := by
  obtain ⟨body, rfl, hbody⟩ := h
  intro c hc
  rw [List.mem_append] at hc
  rcases hc with h | h
  · rcases hbody c h with h1 | h1 | h1
    · exact Or.inl h1
    · exact Or.inr (Or.inl h1)
    · exact Or.inr (Or.inr (Or.inl h1))
  · simp at h
    rcases h with h | h
    · exact Or.inr (Or.inr (Or.inr (Or.inl h)))
    · exact Or.inr (Or.inr (Or.inr (Or.inr h)))

theorem crlf_suffix_complete (l : List Nat) (h : complete_line l) : [13, 10] <:+ l := by
  obtain ⟨body, rfl, _⟩ := h
  exact List.suffix_append _ _

/-- The bytes of one iteration are zero, one or two complete lines. -/
theorem loop_body_lines (now : Nat) (uspi : uspispy_t) (st : LoopState) :
    (loop_body now uspi st []).2 = [] ∨ complete_line (loop_body now uspi st []).2 ∨
    ∃ a b, (loop_body now uspi st []).2 = a ++ b ∧ complete_line a ∧ complete_line b := by
  rw [loop_body_eq]
  have hh := heartbeat_text_complete uspi.counter
  have ht := trace_line_complete uspi.cmd uspi.addr uspi.len_sr
  rw [heartbeat_text] at hh
  by_cases hdue : heartbeat_due now st.last_report <;> by_cases hc : uspi.cmd = st.last_cmd
  · simp only [hdue, hc, if_true, List.nil_append, List.append_nil]
    exact Or.inr (Or.inl hh)
  · simp only [hdue, hc, if_true, if_false, List.nil_append]
    exact Or.inr (Or.inr ⟨_, _, rfl, hh, ht⟩)
  · simp only [hdue, hc, if_true, if_false, List.nil_append, List.append_nil]
    exact Or.inl trivial
  · simp only [hdue, hc, if_false, List.nil_append]
    exact Or.inr (Or.inl ht)

/-- C18: for all states and register values, every byte an iteration appends to
the UART is a lowercase hexadecimal digit, a space, a dash, a carriage return or
a line feed; every line feed has a carriage return immediately before it; and a
non-empty output ends with carriage return, line feed. -/
theorem loop_body_wire_format (now : Nat) (uspi : uspispy_t) (st : LoopState)
    (uart : List Nat) :
    (loop_body now uspi st uart).2 = uart ++ (loop_body now uspi st []).2 ∧
    (∀ c ∈ (loop_body now uspi st []).2, wire_byte c) ∧
    lf_after_cr (loop_body now uspi st []).2 ∧
    ((loop_body now uspi st []).2 ≠ [] → [13, 10] <:+ (loop_body now uspi st []).2) := by
  have hframe : (loop_body now uspi st uart).2 = uart ++ (loop_body now uspi st []).2 := by
    rw [loop_body_frame now uspi st uart]
  refine ⟨hframe, ?_⟩
  rcases loop_body_lines now uspi st with h | h | ⟨a, b, h, ha, hb⟩
  · rw [h]
    exact ⟨by simp, lf_after_cr_nil, fun hne => absurd rfl hne⟩
  · exact ⟨wire_byte_complete _ h, lf_after_cr_complete _ h, fun _ => crlf_suffix_complete _ h⟩
  · rw [h]
    refine ⟨?_, lf_after_cr_append a b (lf_after_cr_complete a ha) (lf_after_cr_complete b hb),
      fun _ => ?_⟩
    · intro c hc
      rcases List.mem_append.1 hc with hc | hc
      · exact wire_byte_complete a ha c hc
      · exact wire_byte_complete b hb c hc
    · obtain ⟨t, ht⟩ := crlf_suffix_complete b hb
      exact ⟨a ++ t, by rw [List.append_assoc, ht]⟩

/-! ## Reading `cmd` back from a trace line -/

theorem parse_hex_hexlow (n v : Nat) (h : v < 16 ^ n) : parse_hex (hexlow n v) = some v := by
  rw [parse_hex, parse_hex_from_hexlow, Nat.mod_eq_of_lt h]
  simp

/-- The first two fields of a trace line, in closed form. -/
theorem trace_line_cmd_fields (cmd addr len_sr : Nat) (hcmd : cmd < 2 ^ 32) :
    trace_line cmd addr len_sr =
      hexlow 6 (cmd >>> 8) ++ ([32] ++ (hexlow 2 (cmd &&& 0xFF) ++ ([32] ++
        (print_hex addr 6 [] ++ [32] ++ print_hex (len_sr >>> 8) 4 [] ++ [13, 10])))) := by
  have e1 : print_hex (cmd >>> 8) 6 [] = hexlow 6 (cmd >>> 8) :=
    print_hex_fixed _ 6 (cmd_high_lt _ hcmd) (by norm_num)
  have e2 : print_hex (cmd &&& 0xFF) 2 [] = hexlow 2 (cmd &&& 0xFF) :=
    print_hex_fixed _ 2 (cmd_low_lt _) (by norm_num)
  rw [trace_line, e1, e2]
  simp only [List.append_assoc]

theorem decode_cmd_trace_line (cmd addr len_sr : Nat) (hcmd : cmd < 2 ^ 32) :
    decode_cmd (trace_line cmd addr len_sr) = some cmd := by
  have ht : (trace_line cmd addr len_sr).take 6 = hexlow 6 (cmd >>> 8) := by
    rw [trace_line_cmd_fields cmd addr len_sr hcmd]
    exact List.take_left' (hexlow_length _ _)
  have hd : ((trace_line cmd addr len_sr).drop 7).take 2 = hexlow 2 (cmd &&& 0xFF) := by
    rw [trace_line_cmd_fields cmd addr len_sr hcmd, ← List.append_assoc,
      List.drop_left' (by simp [hexlow_length])]
    exact List.take_left' (hexlow_length _ _)
  have hsum : (cmd >>> 8) * 256 + (cmd &&& 0xFF) = cmd := by
    rw [cmd_low_eq, Nat.shiftRight_eq_div_pow]
    norm_num
    omega
  rw [decode_cmd, ht, hd, parse_hex_hexlow _ _ (cmd_high_lt _ hcmd),
    parse_hex_hexlow _ _ (cmd_low_lt _)]
  simp only [hsum]

/-- C19: for a 32-bit `cmd`, the first two fields of the trace line are exactly
6 and exactly 2 hexadecimal digits (`cmd >> 8 < 2 ^ 24`, `cmd & 0xFF < 2 ^ 8`),
each followed by a space; parsed as hexadecimal values `h` and `l` they give
`h * 256 + l = cmd`. So trace lines for different `cmd` values differ, and the
trace line an iteration sends for a changed `cmd` decodes to that `cmd`. -/
theorem trace_line_recovers_cmd (cmd addr len_sr : Nat) (hcmd : cmd < 2 ^ 32) :
    (∃ f1 f2 rest : List Nat,
      trace_line cmd addr len_sr = f1 ++ [32] ++ f2 ++ [32] ++ rest ∧
      f1.length = 6 ∧ f2.length = 2 ∧ (∀ c ∈ f1 ++ f2, is_hex_digit c) ∧
      parse_hex f1 = some (cmd >>> 8) ∧ parse_hex f2 = some (cmd &&& 0xFF)) ∧
    cmd >>> 8 < 2 ^ 24 ∧ cmd &&& 0xFF < 2 ^ 8 ∧
    (cmd >>> 8) * 256 + (cmd &&& 0xFF) = cmd ∧
    decode_cmd (trace_line cmd addr len_sr) = some cmd ∧
    (∀ cmd' addr' len_sr', cmd' < 2 ^ 32 → cmd' ≠ cmd →
      trace_line cmd' addr' len_sr' ≠ trace_line cmd addr len_sr) ∧
    (∀ now counter st, cmd ≠ st.last_cmd →
      ∃ pre, (loop_body now ⟨counter, cmd, addr, len_sr⟩ st []).2 =
        pre ++ trace_line cmd addr len_sr) := by
  have hhi := cmd_high_lt cmd hcmd
  have hlo := cmd_low_lt cmd
  have hsum : (cmd >>> 8) * 256 + (cmd &&& 0xFF) = cmd := by
    rw [cmd_low_eq, Nat.shiftRight_eq_div_pow]
    norm_num
    omega
  refine ⟨⟨hexlow 6 (cmd >>> 8), hexlow 2 (cmd &&& 0xFF),
    print_hex addr 6 [] ++ [32] ++ print_hex (len_sr >>> 8) 4 [] ++ [13, 10], ?_,
    hexlow_length _ _, hexlow_length _ _, ?_, parse_hex_hexlow _ _ hhi,
    parse_hex_hexlow _ _ hlo⟩, by norm_num at hhi ⊢; exact hhi, by norm_num at hlo ⊢; exact hlo,
    hsum, decode_cmd_trace_line cmd addr len_sr hcmd, ?_, ?_⟩
  · rw [trace_line_cmd_fields cmd addr len_sr hcmd]
    simp only [List.append_assoc]
  · intro c hc
    rcases List.mem_append.1 hc with h | h <;> exact hexlow_is_hex _ _ c h
  · intro cmd' addr' len_sr' hcmd' hne heq
    have h1 := decode_cmd_trace_line cmd' addr' len_sr' hcmd'
    rw [heq, decode_cmd_trace_line cmd addr len_sr hcmd] at h1
    exact hne (Option.some.inj h1).symm
  · intro now counter st hne
    rw [loop_body_eq]
    exact ⟨_, by simp only [if_neg hne]; rfl⟩

/-- Instance of C19 at `cmd = 0x12345678`: the fields `123456` and `78` give
`0x123456 * 256 + 0x78 = 0x12345678`. -/
theorem trace_line_recovers_cmd_witness :
    (0x12345678 : Nat) < 2 ^ 32 ∧
    (trace_line 0x12345678 0xABCDEF 0x00FF0000).take 9 = bytes "123456 78" ∧
    decode_cmd (trace_line 0x12345678 0xABCDEF 0x00FF0000) = some 0x12345678 :=
  ⟨by decide, by decide,
    (trace_line_recovers_cmd 0x12345678 0xABCDEF 0x00FF0000 (by decide)).2.2.2.2.1⟩

/-! ## Heartbeat lines in a run -/

end Uspy
